/-
Verification of the twfy-votes policy-alignment core against its
natural-language specification.

The development shallowly embeds the relevant parts of the repository:

* the motion-text classifier `catagorise_motion` and the non-action
  detector `is_nonaction_vote` (apps/decisions/motion_analysis.py,
  apps/decisions/analysis.py);
* the powers heuristic `DivisionInfo.motion_uses_powers`
  (apps/decisions/models.py);
* the two scoring functions `PublicWhipScore.score` and
  `SimplifiedScore.score` (apps/policies/scoring.py, modelled from the
  spec because that module is not among the sources; the model
  reproduces every test in tests/test_scoring.py and
  tests/test_scoring_pw.py);
* the significance rule `PersonPolicyLink.significant_difference`
  (apps/policies/models.py);
* the slow validator `get_scores_slow` and the fast SQL aggregation
  pipeline (`policy_alignment`, `comparisons_by_policy_vote`,
  `PolicyPivotTable`) from apps/policies/vr_validator.py,
  apps/policies/data_sources.py and apps/policies/queries.py.

Counts are modelled as rationals (the source uses floats; all constants
involved are exactly representable and the tolerance arguments are
order-of-magnitude, so the rational model is faithful).
-/
import Mathlib

set_option maxRecDepth 20000

/-! ## String machinery

Python's `in` operator on strings is substring containment, and
`str.lower()` lower-cases (ASCII, for the motion texts involved).
We model strings through their character lists so that every
computation kernel-reduces. -/

/-- Occurrence of `pat` at the head of `text` (character lists). -/
def listStartsWith : List Char → List Char → Bool
  | _, [] => true
  | [], _ :: _ => false
  | a :: as, b :: bs => a == b && listStartsWith as bs

/-- Occurrence of `pat` anywhere inside `text` (character lists). -/
def listOccurs : List Char → List Char → Bool
  | [], pat => listStartsWith [] pat
  | c :: rest, pat => listStartsWith (c :: rest) pat || listOccurs rest pat

/-- Python's `sub in search` for strings. -/
def strContains (search sub : String) : Bool :=
  listOccurs search.data sub.data

/-- Python's `str.lower()` (ASCII case folding, which is what the motion
texts exercise). -/
def pyLower (s : String) : String :=
  String.mk (s.data.map Char.toLower)

/-- Source `motion_analysis.all_present`: true when all the phrases appear
in the search string. -/
def all_present (search : String) (items : List String) : Bool :=
  items.all (fun x => strContains search x)

/-- Source `motion_analysis.any_present`: true when any phrase appears in
the search string. -/
def any_present (search : String) (items : List String) : Bool :=
  items.any (fun x => strContains search x)

/-! ## Vote-type taxonomy and the motion classifier -/

/-- Source enum `VoteType` (apps/decisions/models.py), together with the
two members referenced by `catagorise_motion`
(`REVOKE_STATUTORY_INSTRUMENT`, `EU_DOCUMENT_SCRUTINY`). -/
inductive VoteType where
  | AMENDMENT
  | TEN_MINUTE_RULE
  | LORDS_AMENDMENT
  | FIRST_STAGE
  | SECOND_STAGE
  | COMMITEE_CLAUSE
  | SECOND_STAGE_COMMITTEE
  | THIRD_STAGE
  | APPROVE_STATUTORY_INSTRUMENT
  | REVOKE_STATUTORY_INSTRUMENT
  | ADJOURNMENT
  | TIMETABLE_CHANGE
  | HUMBLE_ADDRESS
  | GOVERNMENT_AGENDA
  | CONFIDENCE
  | STANDING_ORDER_CHANGE
  | PRIVATE_SITTING
  | EU_DOCUMENT_SCRUTINY
  | OTHER
  deriving DecidableEq, Repr

/-- Source `catagorise_motion` (apps/decisions/motion_analysis.py): the
ordered first-match-wins cascade of phrase rules over the lower-cased
motion text. -/
def catagorise_motion (motion : String) : VoteType :=
  let l_motion := pyLower motion
  if all_present l_motion ["be approved", "laid before this house"] then
    VoteType.APPROVE_STATUTORY_INSTRUMENT
  else if all_present l_motion ["be revoked", "laid before this house"] then
    VoteType.REVOKE_STATUTORY_INSTRUMENT
  else if any_present l_motion ["makes provision as set out in this order"] then
    VoteType.TIMETABLE_CHANGE
  else if any_present l_motion
      ["following standing order be made", "orders be standing orders of the house"] then
    VoteType.STANDING_ORDER_CHANGE
  else if any_present l_motion ["first reading"] then
    VoteType.FIRST_STAGE
  else if any_present l_motion ["second reading", "read a second time"] &&
      any_present l_motion ["clause"] then
    VoteType.SECOND_STAGE_COMMITTEE
  else if any_present l_motion ["clause stand part of the bill"] then
    VoteType.COMMITEE_CLAUSE
  else if any_present l_motion ["third reading", "read a third time", "read the third time"] then
    VoteType.THIRD_STAGE
  else if any_present l_motion ["second reading", "read a second time"] then
    VoteType.SECOND_STAGE
  else if all_present l_motion ["standing order", "23"] then
    VoteType.TEN_MINUTE_RULE
  else if any_present l_motion ["do adjourn until"] then
    VoteType.ADJOURNMENT
  else if (any_present l_motion
      ["takes note of european union document",
       "takes note of european document",
       "takes note of draft european council decision"] ||
      all_present l_motion ["takes note of regulation", "of the european parliament"]) then
    VoteType.EU_DOCUMENT_SCRUTINY
  else if all_present l_motion ["amendment", "lords"] then
    VoteType.LORDS_AMENDMENT
  else if any_present l_motion ["gracious speech"] then
    VoteType.GOVERNMENT_AGENDA
  else if any_present l_motion ["amendment", "clause be added to the bill"] then
    VoteType.AMENDMENT
  else if any_present l_motion ["humble address be presented"] then
    VoteType.HUMBLE_ADDRESS
  else if any_present l_motion ["that the house sit in private"] then
    VoteType.PRIVATE_SITTING
  else if all_present l_motion ["confidence in", "government"] then
    VoteType.CONFIDENCE
  else
    VoteType.OTHER

/-! ## Non-action vote detector -/

/-- Source phrase list `non_action_phrases` in `is_nonaction_vote`. -/
def non_action_phrases : List String :=
  ["believes", "regrets", "notes with approval", "expressed approval",
   "welcomes", "is concerned", "calls on the", "recognises", "takes note",
   "agrees with the goverment's decision"]

/-- Source phrase list `action_phrases` in `is_nonaction_vote`.
Note that two of these contain upper-case letters exactly as in the
source, although they are matched against lower-cased text. -/
def action_phrases : List String :=
  ["orders that", "requires the Goverment", "censures",
   "declines to give a Second Reading"]

/-- Source `is_nonaction_vote` (apps/decisions/analysis.py): the text is
lower-cased, each matching non-action phrase adds one to the score, then
each matching action phrase resets the score to zero. -/
def is_nonaction_vote (motion_text : String) : Bool :=
  let reduced_text := pyLower motion_text
  let score :=
    non_action_phrases.foldl
      (fun score phrase => if strContains reduced_text phrase then score + 1 else score) 0
  let score :=
    action_phrases.foldl
      (fun score phrase => if strContains reduced_text phrase then 0 else score) score
  score > 0

/-! ### Claims C9 and C7 -/

/-- C9: `catagorise_motion` applies its rules in a fixed order with the
first match winning; "Question put (Standing Order No. 23)." matches no
rule before the `["standing order", "23"]` conjunction, and that rule
yields `TEN_MINUTE_RULE`. -/
theorem catagorise_motion_standing_order_23 :
    catagorise_motion "Question put (Standing Order No. 23)." = VoteType.TEN_MINUTE_RULE := by
  decide

/-- C7 (code bug): the claim says `is_nonaction_vote` returns `False`
whenever an action phrase is present.  The source lower-cases the motion
text but compares it against the literal phrases
"requires the Goverment" and "declines to give a Second Reading", which
contain upper-case letters and therefore can never match.  On the input
below, which contains the action phrase "requires the Goverment"
verbatim together with the non-action phrase "believes", the function
returns `true` (non-action), contradicting the claim. -/
theorem is_nonaction_vote_action_phrase_bug :
    strContains "The House believes it requires the Goverment to act"
      "requires the Goverment" = true ∧
    is_nonaction_vote "The House believes it requires the Goverment to act" = true := by
  constructor
  · decide
  · decide

/-! ## Powers heuristic (apps/decisions/models.py) -/

/-- Source enum `PowersAnalysis` (spelling of the third member as in the
source). -/
inductive PowersAnalysis where
  | USES_POWERS
  | DOES_NOT_USE_POWERS
  | INSUFFICENT_INFO
  deriving DecidableEq, Repr

/-- Part of source `VoteMotionAnalysis`: the two fields that
`motion_uses_powers` reads. -/
structure VoteMotionAnalysis where
  full_motion_speech : String
  vote_type : VoteType
  deriving DecidableEq, Repr

/-- Source `VoteMotionAnalysis.motion_uses_powers`: adjournment, other
and government-agenda motions defer to the non-action text check, every
other type is presumed to use powers. -/
def VoteMotionAnalysis.motion_uses_powers (v : VoteMotionAnalysis) : Bool :=
  if v.vote_type = VoteType.ADJOURNMENT ∨ v.vote_type = VoteType.OTHER ∨
      v.vote_type = VoteType.GOVERNMENT_AGENDA then
    !(is_nonaction_vote v.full_motion_speech)
  else
    true

/-- HTML-tag stripping: the model of `BeautifulSoup(...).get_text()` used
by `DivisionInfo.motion_text_only`.  (The HTML library is outside the
repository; on the tag-structured fragments stored in `motion` its
`get_text` concatenates the text outside `<...>` tags, which is what this
function computes.)  The first argument tracks whether the scan is
currently inside a tag. -/
def stripTagsAux : Bool → List Char → List Char
  | _, [] => []
  | true, c :: rest => if c == '>' then stripTagsAux false rest else stripTagsAux true rest
  | false, c :: rest => if c == '<' then stripTagsAux true rest else c :: stripTagsAux false rest

/-- Plain text of an HTML-ish fragment. -/
def stripTags (s : String) : String :=
  String.mk (stripTagsAux false s.data)

/-- Python's `text.split(" ")`: split on every single space character, so
`""` yields one (empty) segment and consecutive spaces yield empty
segments. -/
def pySplitSpace : List Char → List (List Char)
  | [] => [[]]
  | c :: rest =>
    match pySplitSpace rest with
    | [] => [[]]
    | w :: ws => if c == ' ' then [] :: w :: ws else (c :: w) :: ws

/-- Part of source `DivisionInfo`: the three fields that
`motion_uses_powers` and `poor_quality_motion_text` read.  A missing
(`None`) `vote_motion_analysis` and an empty `manual_motion` are the
falsy values the Python truth-tests check. -/
structure DivisionInfo where
  motion : String
  manual_motion : String
  vote_motion_analysis : Option VoteMotionAnalysis
  deriving DecidableEq, Repr

/-- Source `DivisionInfo.motion_text_only`: the plain text of the motion
fragment. -/
def DivisionInfo.motion_text_only (d : DivisionInfo) : String :=
  stripTags d.motion

/-- Source `DivisionInfo.poor_quality_motion_text`: the motion is poor
quality when its plain text splits (on single spaces) into fewer than 20
words. -/
def DivisionInfo.poor_quality_motion_text (d : DivisionInfo) : Bool :=
  let text := d.motion_text_only
  let num_of_words := (pySplitSpace text.data).length
  num_of_words < 20

/-- Source `DivisionInfo.motion_uses_powers`: combines the structured
motion analysis (when present) with the non-action checks on the primary
and manual motion texts and the poor-quality heuristic. -/
def DivisionInfo.motion_uses_powers (d : DivisionInfo) : PowersAnalysis :=
  match d.vote_motion_analysis with
  | some vma =>
    let result :=
      if vma.motion_uses_powers then PowersAnalysis.USES_POWERS
      else PowersAnalysis.DOES_NOT_USE_POWERS
    if vma.vote_type = VoteType.AMENDMENT then
      if ¬(d.manual_motion = "") ∧ ¬(d.poor_quality_motion_text = true) then
        if is_nonaction_vote d.motion then PowersAnalysis.DOES_NOT_USE_POWERS
        else PowersAnalysis.USES_POWERS
      else result
    else result
  | none =>
    if ¬(d.manual_motion = "") ∨ ¬(d.motion = "") then
      let motion_based_nonaction := is_nonaction_vote d.motion
      let manual_motion_based_nonaction := is_nonaction_vote d.manual_motion
      let poor_quality_motion := d.poor_quality_motion_text
      if poor_quality_motion = true ∧ ¬(d.manual_motion = "") then
        if manual_motion_based_nonaction then PowersAnalysis.DOES_NOT_USE_POWERS
        else PowersAnalysis.USES_POWERS
      else if poor_quality_motion = true ∧ d.manual_motion = "" then
        if motion_based_nonaction then PowersAnalysis.DOES_NOT_USE_POWERS
        else PowersAnalysis.INSUFFICENT_INFO
      else
        if motion_based_nonaction || manual_motion_based_nonaction then
          PowersAnalysis.DOES_NOT_USE_POWERS
        else PowersAnalysis.USES_POWERS
    else
      PowersAnalysis.INSUFFICENT_INFO

/-- Evaluation fact used for the empty-motion branch of claim C8. -/
theorem is_nonaction_vote_empty : is_nonaction_vote "" = false := by decide

/-! ### Claim C8 -/

/-- C8 counterexample: the claim quantifies over every division with a
poor-quality primary motion and no manual motion, but a division that
carries a structured `vote_motion_analysis` record takes the first
branch of `motion_uses_powers`, which can return `USES_POWERS` (here via
a `FIRST_STAGE` vote type) even though the motion text is poor quality
and there is no manual motion. -/
theorem motion_uses_powers_poor_quality_counterexample :
    (DivisionInfo.mk "short" ""
        (some (VoteMotionAnalysis.mk "x" VoteType.FIRST_STAGE))).poor_quality_motion_text
      = true ∧
    (DivisionInfo.mk "short" ""
        (some (VoteMotionAnalysis.mk "x" VoteType.FIRST_STAGE))).manual_motion = "" ∧
    (DivisionInfo.mk "short" ""
        (some (VoteMotionAnalysis.mk "x" VoteType.FIRST_STAGE))).motion_uses_powers
      = PowersAnalysis.USES_POWERS := by
  refine ⟨by decide, rfl, by decide⟩

/-- C8 (amended): for every division *without a structured
vote_motion_analysis record* whose primary motion text is poor quality
and which has no manual motion, `motion_uses_powers` never returns
`USES_POWERS`: it returns `DOES_NOT_USE_POWERS` when the primary
non-action check signals non-action and `INSUFFICENT_INFO` otherwise. -/
theorem motion_uses_powers_poor_quality_no_manual (d : DivisionInfo)
    (h1 : d.vote_motion_analysis = none)
    (h2 : d.poor_quality_motion_text = true)
    (h3 : d.manual_motion = "") :
    d.motion_uses_powers ≠ PowersAnalysis.USES_POWERS ∧
    d.motion_uses_powers =
      (if is_nonaction_vote d.motion then PowersAnalysis.DOES_NOT_USE_POWERS
       else PowersAnalysis.INSUFFICENT_INFO) := by
  have hmain : d.motion_uses_powers =
      (if is_nonaction_vote d.motion then PowersAnalysis.DOES_NOT_USE_POWERS
       else PowersAnalysis.INSUFFICENT_INFO) := by
    unfold DivisionInfo.motion_uses_powers
    rw [h1]
    by_cases hm : d.motion = ""
    · simp [h3, hm, is_nonaction_vote_empty]
    · simp [h2, h3, hm]
  refine ⟨?_, hmain⟩
  rw [hmain]
  by_cases hn : is_nonaction_vote d.motion <;> simp [hn]

/-- C8 witness: a concrete division with no motion analysis record, a
two-word (poor quality) motion that matches the non-action phrase
"believes", and no manual motion; the amended theorem applies and the
result evaluates to `DOES_NOT_USE_POWERS`. -/
theorem motion_uses_powers_poor_quality_no_manual_witness :
    (DivisionInfo.mk "believes x" "" none).vote_motion_analysis = none ∧
    (DivisionInfo.mk "believes x" "" none).poor_quality_motion_text = true ∧
    (DivisionInfo.mk "believes x" "" none).manual_motion = "" ∧
    (DivisionInfo.mk "believes x" "" none).motion_uses_powers
      = PowersAnalysis.DOES_NOT_USE_POWERS := by
  refine ⟨rfl, by decide, rfl, ?_⟩
  rw [(motion_uses_powers_poor_quality_no_manual
    (DivisionInfo.mk "believes x" "" none) rfl (by decide) rfl).2]
  decide

/-! ## Scoring functions (apps/policies/scoring.py)

The module `twfy_votes/apps/policies/scoring.py` is not among the
sources (only its callers in apps/policies/models.py and its tests in
tests/test_scoring.py and tests/test_scoring_pw.py are), so the two
scoring functions are modelled from the specification's formulas.  The
models below reproduce every assertion of both test files; a selection
is re-proved further down as regression theorems. -/

/-- Source `ScoreFloatPair`: a weak-strength and a strong-strength
count. -/
structure ScoreFloatPair where
  weak : ℚ
  strong : ℚ
  deriving DecidableEq, Repr

/-- Modelled from the spec: the `points` numerator of the classic
PublicWhip score.  Agreements are folded into the same/different counts
at full vote weight; abstentions are treated as absences; weights are 10
per weak vote, 50 per strong vote, 1 per weak absence and 25 per strong
absence. -/
def PublicWhipScore.points
    (_votes_same votes_different votes_absent votes_abstain
      _agreements_same agreements_different : ScoreFloatPair) : ℚ :=
  let different_weak := votes_different.weak + agreements_different.weak
  let different_strong := votes_different.strong + agreements_different.strong
  let absent_total := votes_absent.weak + votes_abstain.weak
  let strong_absent_total := votes_absent.strong + votes_abstain.strong
  10 * different_weak + 50 * different_strong + 1 * absent_total + 25 * strong_absent_total

/-- Modelled from the spec: the `avaliable` denominator of the classic
PublicWhip score; 10 per weak vote cast either way, 50 per strong vote
cast either way, 50 per strong absence and 2 per weak absence. -/
def PublicWhipScore.available
    (votes_same votes_different votes_absent votes_abstain
      agreements_same agreements_different : ScoreFloatPair) : ℚ :=
  let same_weak := votes_same.weak + agreements_same.weak
  let same_strong := votes_same.strong + agreements_same.strong
  let different_weak := votes_different.weak + agreements_different.weak
  let different_strong := votes_different.strong + agreements_different.strong
  let absent_total := votes_absent.weak + votes_abstain.weak
  let strong_absent_total := votes_absent.strong + votes_abstain.strong
  10 * (same_weak + different_weak) + 50 * (same_strong + different_strong) +
    50 * strong_absent_total + 2 * absent_total

/-- Modelled from the spec: `PublicWhipScore.score`, the classic distance
score; `-1` (no comparable data) when no points are available, otherwise
points over available points.  A total function: it never raises. -/
def PublicWhipScore.score
    (votes_same votes_different votes_absent votes_abstain
      agreements_same agreements_different : ScoreFloatPair) : ℚ :=
  if PublicWhipScore.available votes_same votes_different votes_absent votes_abstain
      agreements_same agreements_different = 0 then
    -1
  else
    PublicWhipScore.points votes_same votes_different votes_absent votes_abstain
        agreements_same agreements_different /
      PublicWhipScore.available votes_same votes_different votes_absent votes_abstain
        agreements_same agreements_different

/-- Modelled from the spec: the numerator of the simplified score.  Weak
votes, weak agreements and absences carry explicit zero weight; strong
different votes and agreements score 10, strong abstentions score 5
(half marks). -/
def SimplifiedScore.points
    (votes_same votes_different votes_absent votes_abstain
      agreements_same agreements_different : ScoreFloatPair) : ℚ :=
  0 * (votes_same.weak + votes_different.weak + votes_abstain.weak +
        agreements_same.weak + agreements_different.weak) +
    0 * (votes_absent.weak + votes_absent.strong) +
    10 * votes_different.strong + 5 * votes_abstain.strong +
    10 * agreements_different.strong

/-- Modelled from the spec: the denominator of the simplified score.
Strong votes and strong agreements make 10 available either way, a
strong abstention makes the full 10 available; weak counts and absences
make nothing available. -/
def SimplifiedScore.available
    (votes_same votes_different votes_absent votes_abstain
      agreements_same agreements_different : ScoreFloatPair) : ℚ :=
  0 * (votes_same.weak + votes_different.weak + votes_abstain.weak +
        agreements_same.weak + agreements_different.weak) +
    0 * (votes_absent.weak + votes_absent.strong) +
    10 * (votes_same.strong + votes_different.strong) +
    10 * votes_abstain.strong +
    10 * (agreements_same.strong + agreements_different.strong)

/-- Modelled from the spec: `SimplifiedScore.score`; `-1` when no points
are available (the sentinel the sibling function uses), otherwise points
over available points.  A total function: it never raises. -/
def SimplifiedScore.score
    (votes_same votes_different votes_absent votes_abstain
      agreements_same agreements_different : ScoreFloatPair) : ℚ :=
  if SimplifiedScore.available votes_same votes_different votes_absent votes_abstain
      agreements_same agreements_different = 0 then
    -1
  else
    SimplifiedScore.points votes_same votes_different votes_absent votes_abstain
        agreements_same agreements_different /
      SimplifiedScore.available votes_same votes_different votes_absent votes_abstain
        agreements_same agreements_different

/-- Regression (tests/test_scoring.py, `test_abstain` and
`test_similar_score`): a single strong abstention scores one half, and
fifteen strong same against five strong different scores one quarter. -/
theorem SimplifiedScore_regression_tests :
    SimplifiedScore.score ⟨0, 0⟩ ⟨0, 0⟩ ⟨0, 0⟩ ⟨0, 1⟩ ⟨0, 0⟩ ⟨0, 0⟩ = 1 / 2 ∧
    SimplifiedScore.score ⟨0, 15⟩ ⟨0, 5⟩ ⟨0, 0⟩ ⟨0, 0⟩ ⟨0, 0⟩ ⟨0, 0⟩ = 1 / 4 ∧
    SimplifiedScore.score ⟨0, 0⟩ ⟨0, 0⟩ ⟨5, 5⟩ ⟨0, 0⟩ ⟨0, 0⟩ ⟨0, 0⟩ = -1 := by
  refine ⟨?_, ?_, ?_⟩ <;>
    norm_num [SimplifiedScore.score, SimplifiedScore.points, SimplifiedScore.available]

/-- Regression (tests/test_scoring_pw.py, `test_abstain`,
`test_similar_score`, `test_relative_weak_vote`,
`test_weird_absent_rule`): the classic score matches its own test
fixtures — in particular one *same* weak vote with one different strong
vote gives 50/60, and an absences-only record gives 26/52. -/
theorem PublicWhipScore_regression_tests :
    PublicWhipScore.score ⟨0, 0⟩ ⟨0, 0⟩ ⟨0, 0⟩ ⟨0, 1⟩ ⟨0, 0⟩ ⟨0, 0⟩ = 1 / 2 ∧
    PublicWhipScore.score ⟨0, 15⟩ ⟨0, 5⟩ ⟨0, 0⟩ ⟨0, 0⟩ ⟨0, 0⟩ ⟨0, 0⟩ = 1 / 4 ∧
    PublicWhipScore.score ⟨1, 0⟩ ⟨0, 1⟩ ⟨0, 0⟩ ⟨0, 0⟩ ⟨0, 0⟩ ⟨0, 0⟩ = 50 / 60 ∧
    PublicWhipScore.score ⟨0, 0⟩ ⟨0, 0⟩ ⟨1, 1⟩ ⟨0, 0⟩ ⟨0, 0⟩ ⟨0, 0⟩ = 26 / 52 := by
  refine ⟨?_, ?_, ?_, ?_⟩ <;>
    norm_num [PublicWhipScore.score, PublicWhipScore.points, PublicWhipScore.available]

/-! ### Claim C3 -/

/-- C3: the simplified score is unchanged by adding or removing any
quantity of weak votes (same, different or abstain), weak agreements, or
absences (weak or strong): the two sides below share only the
strong-tier vote and agreement counts, and all weak counts and both
absence counts vary freely. -/
theorem SimplifiedScore_weak_and_absence_invariant
    (vsw vsw' vss vdw vdw' vds vaw vaw' vas vas' vbw vbw' vbs
      asw asw' ass adw adw' ads : ℚ) :
    SimplifiedScore.score ⟨vsw, vss⟩ ⟨vdw, vds⟩ ⟨vaw, vas⟩ ⟨vbw, vbs⟩
        ⟨asw, ass⟩ ⟨adw, ads⟩ =
    SimplifiedScore.score ⟨vsw', vss⟩ ⟨vdw', vds⟩ ⟨vaw', vas'⟩ ⟨vbw', vbs⟩
        ⟨asw', ass⟩ ⟨adw', ads⟩ := by
  have ha : SimplifiedScore.available ⟨vsw, vss⟩ ⟨vdw, vds⟩ ⟨vaw, vas⟩ ⟨vbw, vbs⟩
      ⟨asw, ass⟩ ⟨adw, ads⟩ =
      SimplifiedScore.available ⟨vsw', vss⟩ ⟨vdw', vds⟩ ⟨vaw', vas'⟩ ⟨vbw', vbs⟩
      ⟨asw', ass⟩ ⟨adw', ads⟩ := by
    simp only [SimplifiedScore.available]; ring
  have hp : SimplifiedScore.points ⟨vsw, vss⟩ ⟨vdw, vds⟩ ⟨vaw, vas⟩ ⟨vbw, vbs⟩
      ⟨asw, ass⟩ ⟨adw, ads⟩ =
      SimplifiedScore.points ⟨vsw', vss⟩ ⟨vdw', vds⟩ ⟨vaw', vas'⟩ ⟨vbw', vbs⟩
      ⟨asw', ass⟩ ⟨adw', ads⟩ := by
    simp only [SimplifiedScore.points]; ring
  simp only [SimplifiedScore.score, ha, hp]

/-! ### Claim C4 -/

/-- C4: moving any quantity `n` of strong-same counts together with the
same quantity of strong-different counts between the votes categories
and the agreements categories leaves the simplified score unchanged:
strong agreements are scored exactly like strong votes. -/
theorem SimplifiedScore_strong_agreements_like_votes
    (vsw vss vdw vds vaw vas vbw vbs asw ass adw ads n : ℚ) :
    SimplifiedScore.score ⟨vsw, vss⟩ ⟨vdw, vds⟩ ⟨vaw, vas⟩ ⟨vbw, vbs⟩
        ⟨asw, ass⟩ ⟨adw, ads⟩ =
    SimplifiedScore.score ⟨vsw, vss - n⟩ ⟨vdw, vds - n⟩ ⟨vaw, vas⟩ ⟨vbw, vbs⟩
        ⟨asw, ass + n⟩ ⟨adw, ads + n⟩ := by
  have ha : SimplifiedScore.available ⟨vsw, vss⟩ ⟨vdw, vds⟩ ⟨vaw, vas⟩ ⟨vbw, vbs⟩
      ⟨asw, ass⟩ ⟨adw, ads⟩ =
      SimplifiedScore.available ⟨vsw, vss - n⟩ ⟨vdw, vds - n⟩ ⟨vaw, vas⟩ ⟨vbw, vbs⟩
      ⟨asw, ass + n⟩ ⟨adw, ads + n⟩ := by
    simp only [SimplifiedScore.available]; ring
  have hp : SimplifiedScore.points ⟨vsw, vss⟩ ⟨vdw, vds⟩ ⟨vaw, vas⟩ ⟨vbw, vbs⟩
      ⟨asw, ass⟩ ⟨adw, ads⟩ =
      SimplifiedScore.points ⟨vsw, vss - n⟩ ⟨vdw, vds - n⟩ ⟨vaw, vas⟩ ⟨vbw, vbs⟩
      ⟨asw, ass + n⟩ ⟨adw, ads + n⟩ := by
    simp only [SimplifiedScore.points]; ring
  simp only [SimplifiedScore.score, ha, hp]

/-! ### Claim C5 -/

/-- C5 counterexample: an absences-only record does *not* make the
classic score return `-1` — absences contribute available points in the
classic scheme, and the repository's own test `test_weird_absent_rule`
pins this input to 26/52 = 1/2. -/
theorem PublicWhipScore_absent_only_counterexample :
    PublicWhipScore.score ⟨0, 0⟩ ⟨0, 0⟩ ⟨1, 1⟩ ⟨0, 0⟩ ⟨0, 0⟩ ⟨0, 0⟩ = 1 / 2 ∧
    (1 / 2 : ℚ) ≠ -1 := by
  constructor
  · norm_num [PublicWhipScore.score, PublicWhipScore.points, PublicWhipScore.available]
  · norm_num

/-- C5 (amended): whenever the available-points total is zero both
scoring functions return exactly `-1` (and, being total functions, never
raise); and for the *simplified* score, any input in which `votes_absent`
(weak and/or strong) is the only nonzero field has zero available points
and hence returns `-1`.  (For the classic score such an input has
nonzero available points and returns 1/2, per the counterexample.) -/
theorem score_no_data_sentinel
    (p1 p2 p3 p4 p5 p6 q1 q2 q3 q4 q5 q6 va : ScoreFloatPair) :
    (PublicWhipScore.available p1 p2 p3 p4 p5 p6 = 0 →
      PublicWhipScore.score p1 p2 p3 p4 p5 p6 = -1) ∧
    (SimplifiedScore.available q1 q2 q3 q4 q5 q6 = 0 →
      SimplifiedScore.score q1 q2 q3 q4 q5 q6 = -1) ∧
    SimplifiedScore.score ⟨0, 0⟩ ⟨0, 0⟩ va ⟨0, 0⟩ ⟨0, 0⟩ ⟨0, 0⟩ = -1 := by
  refine ⟨fun h => ?_, fun h => ?_, ?_⟩
  · simp only [PublicWhipScore.score, h, if_pos]
  · simp only [SimplifiedScore.score, h, if_pos]
  · have h0 : SimplifiedScore.available ⟨0, 0⟩ ⟨0, 0⟩ va ⟨0, 0⟩ ⟨0, 0⟩ ⟨0, 0⟩ = 0 := by
      simp only [SimplifiedScore.available]; ring
    simp only [SimplifiedScore.score, h0, if_pos]

/-- C5 witness: the all-zero record has zero available points under both
schemes and both scores evaluate to `-1`; the absences-only simplified
input `votes_absent = (5, 5)` also evaluates to `-1`. -/
theorem score_no_data_sentinel_witness :
    PublicWhipScore.score ⟨0, 0⟩ ⟨0, 0⟩ ⟨0, 0⟩ ⟨0, 0⟩ ⟨0, 0⟩ ⟨0, 0⟩ = -1 ∧
    SimplifiedScore.score ⟨0, 0⟩ ⟨0, 0⟩ ⟨0, 0⟩ ⟨0, 0⟩ ⟨0, 0⟩ ⟨0, 0⟩ = -1 ∧
    SimplifiedScore.score ⟨0, 0⟩ ⟨0, 0⟩ ⟨5, 5⟩ ⟨0, 0⟩ ⟨0, 0⟩ ⟨0, 0⟩ = -1 := by
  have h := score_no_data_sentinel ⟨0, 0⟩ ⟨0, 0⟩ ⟨0, 0⟩ ⟨0, 0⟩ ⟨0, 0⟩ ⟨0, 0⟩
    ⟨0, 0⟩ ⟨0, 0⟩ ⟨0, 0⟩ ⟨0, 0⟩ ⟨0, 0⟩ ⟨0, 0⟩ ⟨5, 5⟩
  refine ⟨h.1 ?_, h.2.1 ?_, h.2.2⟩
  · norm_num [PublicWhipScore.available]
  · norm_num [SimplifiedScore.available]

/-! ### Claim C6 -/

/-- C6 counterexample: on one *different* weak vote together with one
different strong vote (all else zero) the classic score is 60/60 = 1,
not 50/60: the claim's input description does not produce 50/60. -/
theorem PublicWhipScore_different_weak_counterexample :
    PublicWhipScore.score ⟨0, 0⟩ ⟨1, 1⟩ ⟨0, 0⟩ ⟨0, 0⟩ ⟨0, 0⟩ ⟨0, 0⟩ = 1 ∧
    (1 : ℚ) ≠ 50 / 60 := by
  constructor
  · norm_num [PublicWhipScore.score, PublicWhipScore.points, PublicWhipScore.available]
  · norm_num

/-- C6 (amended): on one *same* weak vote and one different strong vote,
all else zero — the input of the repository's `test_relative_weak_vote`
— the classic score is 50/60. -/
theorem PublicWhipScore_one_weak_one_strong :
    PublicWhipScore.score ⟨1, 0⟩ ⟨0, 1⟩ ⟨0, 0⟩ ⟨0, 0⟩ ⟨0, 0⟩ ⟨0, 0⟩ = 50 / 60 := by
  norm_num [PublicWhipScore.score, PublicWhipScore.points, PublicWhipScore.available]

/-! ## Vote distributions and the significance rule
(apps/policies/models.py) -/

/-- Source enum `StrengthMeaning`. -/
inductive StrengthMeaning where
  | CLASSIC
  | SIMPLIFIED
  deriving DecidableEq, Repr

/-- Source `VoteDistribution`: the per-(person, policy) breakdown of
votes and agreements, with the computed distance and similarity
scores. -/
structure VoteDistribution where
  num_votes_same : ℚ := 0
  num_strong_votes_same : ℚ := 0
  num_votes_different : ℚ := 0
  num_strong_votes_different : ℚ := 0
  num_votes_absent : ℚ := 0
  num_strong_votes_absent : ℚ := 0
  num_votes_abstain : ℚ := 0
  num_strong_votes_abstain : ℚ := 0
  num_agreements_same : ℚ := 0
  num_strong_agreements_same : ℚ := 0
  num_agreements_different : ℚ := 0
  num_strong_agreements_different : ℚ := 0
  start_year : Int := 0
  end_year : Int := 0
  distance_score : ℚ := 0
  similarity_score : ℚ := 0
  deriving DecidableEq, Repr

/-- Source `VoteDistribution.score_against_function`: pack the twelve
counts into six weak/strong pairs and apply the given scoring
function. -/
def VoteDistribution.score_against_function (v : VoteDistribution)
    (score_cls : ScoreFloatPair → ScoreFloatPair → ScoreFloatPair → ScoreFloatPair →
      ScoreFloatPair → ScoreFloatPair → ℚ) : ℚ :=
  score_cls
    ⟨v.num_votes_same, v.num_strong_votes_same⟩
    ⟨v.num_votes_different, v.num_strong_votes_different⟩
    ⟨v.num_votes_absent, v.num_strong_votes_absent⟩
    ⟨v.num_votes_abstain, v.num_strong_votes_abstain⟩
    ⟨v.num_agreements_same, v.num_strong_agreements_same⟩
    ⟨v.num_agreements_different, v.num_strong_agreements_different⟩

/-- Source `VoteDistribution.score`: dispatch on the strength meaning,
store the distance score, and propagate the `-1` sentinel into the
similarity score. -/
def VoteDistribution.score (v : VoteDistribution)
    (strength_meaning : StrengthMeaning) : VoteDistribution :=
  let s :=
    match strength_meaning with
    | StrengthMeaning.CLASSIC => v.score_against_function PublicWhipScore.score
    | StrengthMeaning.SIMPLIFIED => v.score_against_function SimplifiedScore.score
  { v with
      distance_score := s
      similarity_score := if s = -1 then -1 else 1 - s }

/-- Part of source `PersonPolicyLink`: the fields read by
`significant_difference`. -/
structure PersonPolicyLink where
  person_id : Nat
  policy_id : Nat
  comparison_party : String
  own_distribution : VoteDistribution
  other_distribution : VoteDistribution
  no_party_comparison : Bool := false
  comparison_score_difference : ℚ := 0
  deriving DecidableEq, Repr

/-- Source `PersonPolicyLink.significant_difference`: significant when
one score is below 0.4 and the other above 0.6. -/
def PersonPolicyLink.significant_difference (l : PersonPolicyLink) : Bool :=
  let own_score := l.own_distribution.distance_score
  let other_score := l.other_distribution.distance_score
  if own_score < 0.4 ∧ other_score > 0.6 then true
  else if own_score > 0.6 ∧ other_score < 0.4 then true
  else false

/-! ### Claim C10 -/

/-- C10: when the person's own distribution carries the no-data sentinel
`distance_score = -1`, `significant_difference` still applies the plain
numeric thresholds: `-1 < 0.4` holds and `-1 > 0.6` fails, so the link
is flagged significant exactly when the comparison score exceeds 0.6 —
the sentinel is not excluded from the significance rule. -/
theorem significant_difference_sentinel_not_excluded (l : PersonPolicyLink)
    (h : l.own_distribution.distance_score = -1) :
    (l.significant_difference = true ↔ l.other_distribution.distance_score > 0.6) := by
  unfold PersonPolicyLink.significant_difference
  rw [h]
  have h1 : (-1 : ℚ) < 0.4 := by norm_num
  have h2 : ¬((-1 : ℚ) > 0.6) := by norm_num
  by_cases ho : l.other_distribution.distance_score > 0.6
  · simp [h1, h2, ho]
  · simp [h1, h2, ho]

/-- C10 witness: a link whose own distribution has the `-1` sentinel and
whose comparison distribution scores 0.7 is flagged as significantly
different. -/
theorem significant_difference_sentinel_not_excluded_witness :
    PersonPolicyLink.significant_difference
      { person_id := 1, policy_id := 1, comparison_party := "labour",
        own_distribution := { distance_score := -1 },
        other_distribution := { distance_score := 0.7 } } = true := by
  refine (significant_difference_sentinel_not_excluded
    { person_id := 1, policy_id := 1, comparison_party := "labour",
      own_distribution := { distance_score := -1 },
      other_distribution := { distance_score := 0.7 } } rfl).mpr ?_
  norm_num

/-! ## Validator score records and tolerance comparison
(apps/policies/vr_validator.py)

The validator's `Score` record carries the twelve count fields (the
`num_comparators` debug list plays no role in any comparison and is
omitted). -/

/-- Model of `math.isclose(a, b, abs_tol=0.05)`: the default relative
tolerance is 1e-9 and the absolute tolerance passed by the validator is
0.05. -/
def tol (a b : ℚ) : Bool :=
  decide (|a - b| ≤ max (1 / 1000000000 * max |a| |b|) (1 / 20))

/-- Source `vr_validator.Score`: the twelve vote/agreement count
fields. -/
structure Score where
  num_votes_same : ℚ := 0
  num_strong_votes_same : ℚ := 0
  num_votes_different : ℚ := 0
  num_strong_votes_different : ℚ := 0
  num_votes_absent : ℚ := 0
  num_strong_votes_absent : ℚ := 0
  num_votes_abstained : ℚ := 0
  num_strong_votes_abstained : ℚ := 0
  num_agreements_same : ℚ := 0
  num_strong_agreements_same : ℚ := 0
  num_agreements_different : ℚ := 0
  num_strong_agreements_different : ℚ := 0
  deriving DecidableEq, Repr

/-- The per-field message `f"{field} is not equal - {o} != {t}"` built by
`Score.tol_errors`. -/
def mkTolError (field : String) (a b : ℚ) : String :=
  s!"{field} is not equal - {a} != {b}"

/-- The `fields` list inside `Score.tol_errors`: the eight vote-count
field names, each paired with its projection. -/
def Score.voteFieldList : List (String × (Score → ℚ)) :=
  [("num_votes_same", fun s => s.num_votes_same),
   ("num_strong_votes_same", fun s => s.num_strong_votes_same),
   ("num_votes_different", fun s => s.num_votes_different),
   ("num_strong_votes_different", fun s => s.num_strong_votes_different),
   ("num_votes_absent", fun s => s.num_votes_absent),
   ("num_strong_votes_absent", fun s => s.num_strong_votes_absent),
   ("num_votes_abstained", fun s => s.num_votes_abstained),
   ("num_strong_votes_abstained", fun s => s.num_strong_votes_abstained)]

/-- Source `Score.tol_errors`: one human-readable message per listed
field outside tolerance. -/
def Score.tol_errors (self other : Score) : List String :=
  Score.voteFieldList.foldl
    (fun errors fld =>
      if tol (fld.2 self) (fld.2 other) then errors
      else errors ++ [mkTolError fld.1 (fld.2 self) (fld.2 other)])
    []

/-- Source `Score.__eq__`: records are equal when `tol_errors` is
empty. -/
def Score.eq (self other : Score) : Bool :=
  (self.tol_errors other).isEmpty

/-- Accumulating-fold description of the error-collecting loop. -/
theorem foldl_error_accum {α : Type} (p : α → Bool) (g : α → String) :
    ∀ (l : List α) (init : List String),
      l.foldl (fun errors x => if p x then errors else errors ++ [g x]) init =
        init ++ (l.filter (fun x => !p x)).map g := by
  intro l
  induction l with
  | nil => intro init; simp
  | cons x xs ih =>
    intro init
    cases hpx : p x
    · simp [hpx, ih]
    · simp [hpx, ih]

/-- Evaluation fact: two identical values are within tolerance. -/
theorem tol_self (a : ℚ) : tol a a = true := by
  simp only [tol, decide_eq_true_eq, sub_self, abs_zero]
  positivity

/-! ### Claim C2 -/

/-- C2 counterexample: the claim says `tol_errors` covers all twelve
count fields, but the `fields` list in the source names only the eight
vote fields.  Two records that differ by a full agreement count (well
beyond the 0.05 tolerance) produce no mismatch message and compare
equal. -/
theorem tol_errors_ignores_agreement_fields :
    Score.tol_errors {} { num_agreements_same := 1 } = [] ∧
    Score.eq {} { num_agreements_same := 1 } = true ∧
    tol 0 1 = false := by
  have htol : tol (0 : ℚ) 0 = true := tol_self 0
  have herr : Score.tol_errors {} { num_agreements_same := 1 } = [] := by
    simp [Score.tol_errors, Score.voteFieldList, htol]
  refine ⟨herr, ?_, ?_⟩
  · simp [Score.eq, herr]
  · have h1 : |(0 : ℚ) - 1| = 1 := by norm_num
    have h2 : max ((1 : ℚ) / 1000000000 * max |(0 : ℚ)| |(1 : ℚ)|) (1 / 20) = 1 / 20 := by
      rw [abs_zero, abs_one]
      norm_num [max_def]
    simp only [tol, h1, h2, decide_eq_false_iff_not, not_le]
    norm_num

/-- C2 (amended): `tol_errors` returns exactly one mismatch message —
naming the field and both values — for each of the *eight vote* count
fields whose values fail the `math.isclose` check with absolute
tolerance 0.05 (the four agreement fields are never compared, per the
counterexample), and two records compare equal (`__eq__`) exactly when
this list is empty. -/
theorem tol_errors_spec (a b : Score) :
    a.tol_errors b =
      (Score.voteFieldList.filter (fun fld => !(tol (fld.2 a) (fld.2 b)))).map
        (fun fld => mkTolError fld.1 (fld.2 a) (fld.2 b)) ∧
    (Score.eq a b = true ↔ a.tol_errors b = []) := by
  constructor
  · unfold Score.tol_errors
    simpa using foldl_error_accum
      (fun fld : String × (Score → ℚ) => tol (fld.2 a) (fld.2 b))
      (fun fld : String × (Score → ℚ) => mkTolError fld.1 (fld.2 a) (fld.2 b))
      Score.voteFieldList []
  · simp [Score.eq, List.isEmpty_iff]

/-! ## Relational data model for the aggregator/validator comparison

Claim C1 compares the fast SQL aggregation pipeline with the slow
Python validator.  Both consume the same relational inputs, modelled
here: memberships (`pd_memberships`, with `party_reduced` as the party
column both paths filter on), divisions with their recorded votes
(`pw_division` + `pw_vote`; the "clean" votes contain
aye/no/tellers/abstention — `both` is conformed to `abstention`
upstream and absences are synthesised, never recorded), and a policy
with its division and agreement links.  Dates are modelled as ordinal
day numbers.  Votes are keyed by person: the `pw_vote` view attributes
each vote to the membership covering the division date, so under the
one-covering-membership-per-person data invariant the person is the
key in both paths. -/

/-- Source enum `AllowedChambers`. -/
inductive AllowedChambers where
  | commons
  | lords
  | scotland
  | wales
  | ni
  deriving DecidableEq, Repr

/-- Source enum `VotePosition`. -/
inductive VotePosition where
  | aye
  | no
  | abstention
  | absent
  | tellno
  | tellaye
  deriving DecidableEq, Repr

/-- Source enum `PolicyDirection`. -/
inductive PolicyDirection where
  | AGREE
  | AGAINST
  | NEUTRAL
  deriving DecidableEq, Repr

/-- Source enum `PolicyStrength`. -/
inductive PolicyStrength where
  | WEAK
  | STRONG
  deriving DecidableEq, Repr

/-- One `pd_memberships` row (named `MembershipRow` because `Membership`
is a type class of the ambient library). -/
structure MembershipRow where
  person_id : Nat
  party_reduced : String
  chamber : AllowedChambers
  start_date : Nat
  end_date : Nat
  deriving DecidableEq, Repr

/-- One `pw_division` row together with its recorded (clean) votes. -/
structure Division where
  division_id : Nat
  date : Nat
  chamber : AllowedChambers
  votes : List (Nat × VotePosition)
  deriving DecidableEq, Repr

/-- One policy division link (`policy_votes` row). -/
structure DivisionLink where
  decision : Division
  alignment : PolicyDirection
  strength : PolicyStrength
  deriving DecidableEq, Repr

/-- One policy agreement link (`policy_agreements` row). -/
structure AgreementLink where
  date : Nat
  chamber : AllowedChambers
  alignment : PolicyDirection
  strength : PolicyStrength
  deriving DecidableEq, Repr

/-- The policy data both paths read. -/
structure Policy where
  chamber : AllowedChambers
  division_links : List DivisionLink
  agreement_links : List AgreementLink
  deriving DecidableEq, Repr

/-! ## Slow validator path (`get_scores_slow`, vr_validator.py) -/

/-- Source `Score.total_votes`: the sum of the eight vote fields. -/
def Score.total_votes (s : Score) : ℚ :=
  s.num_votes_same + s.num_votes_different + s.num_votes_absent +
    s.num_strong_votes_same + s.num_strong_votes_different + s.num_strong_votes_absent +
    s.num_votes_abstained + s.num_strong_votes_abstained

/-- Source `Score.reduce`: each vote field becomes its fraction of the
total, so the reduced record's total is one (the agreement fields are
copied unchanged, as `model_copy` does). -/
def Score.reduce (s : Score) : Score :=
  let total := s.total_votes
  { s with
      num_votes_same := s.num_votes_same / total
      num_votes_different := s.num_votes_different / total
      num_votes_absent := s.num_votes_absent / total
      num_strong_votes_same := s.num_strong_votes_same / total
      num_strong_votes_different := s.num_strong_votes_different / total
      num_strong_votes_absent := s.num_strong_votes_absent / total
      num_votes_abstained := s.num_votes_abstained / total
      num_strong_votes_abstained := s.num_strong_votes_abstained / total }

/-- Source `Score.__add__`: adds the eight vote fields into `self`
(the agreement fields of `self` are kept, those of `other` dropped). -/
def Score.addVotes (self other : Score) : Score :=
  { self with
      num_votes_same := self.num_votes_same + other.num_votes_same
      num_strong_votes_same := self.num_strong_votes_same + other.num_strong_votes_same
      num_votes_different := self.num_votes_different + other.num_votes_different
      num_strong_votes_different :=
        self.num_strong_votes_different + other.num_strong_votes_different
      num_votes_absent := self.num_votes_absent + other.num_votes_absent
      num_strong_votes_absent := self.num_strong_votes_absent + other.num_strong_votes_absent
      num_votes_abstained := self.num_votes_abstained + other.num_votes_abstained
      num_strong_votes_abstained :=
        self.num_strong_votes_abstained + other.num_strong_votes_abstained }

/-- Source `PolicyComparison`. -/
structure PolicyComparison where
  target_distribution : Score
  other_distribution : Score
  deriving DecidableEq, Repr

/-- Source `PolicyComparison.__eq__`: both distributions within
tolerance. -/
def PolicyComparison.eq (self other : PolicyComparison) : Bool :=
  Score.eq self.target_distribution other.target_distribution &&
    Score.eq self.other_distribution other.other_distribution

/-- Source `get_party_members_or_person`: commons memberships of the
comparison party or of the person themselves (the chamber is hard-coded
to commons in the validator's SQL). -/
def get_party_members_or_person (ms : List MembershipRow) (party_slug : String)
    (person_id : Nat) : List MembershipRow :=
  ms.filter fun m =>
    decide (m.chamber = AllowedChambers.commons) &&
      (decide (m.party_reduced = party_slug) || decide (m.person_id = person_id))

/-- Source `get_mp_dates`: the person's commons memberships (chamber
hard-coded to commons). -/
def get_mp_dates (ms : List MembershipRow) (person_id : Nat) : List MembershipRow :=
  ms.filter fun m =>
    decide (m.chamber = AllowedChambers.commons) && decide (m.person_id = person_id)

/-- The validator's per-member tally: the nested conditionals of the
member loop in `get_scores_slow`, updating either the running
`member_score` (first component) or the per-division
`other_this_vote_score` (second component).  The vote lookup models the
Python `{v.person.person_id: v for v in votes}` dict (last entry wins,
hence the reversed list). -/
def slowMemberUpdate (person_id : Nat) (link : DivisionLink)
    (acc : Score × Score) (m : MembershipRow) : Score × Score :=
  let member_score := acc.1
  let other_this := acc.2
  let is_target := decide (person_id = m.person_id)
  let is_strong := decide (link.strength = PolicyStrength.STRONG)
  match List.lookup m.person_id link.decision.votes.reverse with
  | none =>
    if is_strong then
      if is_target then
        ({ member_score with
            num_strong_votes_absent := member_score.num_strong_votes_absent + 1 }, other_this)
      else
        (member_score,
         { other_this with num_strong_votes_absent := other_this.num_strong_votes_absent + 1 })
    else
      if is_target then
        ({ member_score with num_votes_absent := member_score.num_votes_absent + 1 }, other_this)
      else
        (member_score, { other_this with num_votes_absent := other_this.num_votes_absent + 1 })
  | some vote =>
    let aligned :=
      ((decide (vote = VotePosition.aye) || decide (vote = VotePosition.tellaye)) &&
          decide (link.alignment = PolicyDirection.AGREE)) ||
        ((decide (vote = VotePosition.no) || decide (vote = VotePosition.tellno)) &&
          decide (link.alignment = PolicyDirection.AGAINST))
    let is_abstention := decide (vote = VotePosition.abstention)
    if is_target then
      if is_strong then
        if aligned then
          ({ member_score with
              num_strong_votes_same := member_score.num_strong_votes_same + 1 }, other_this)
        else if is_abstention then
          ({ member_score with
              num_strong_votes_abstained := member_score.num_strong_votes_abstained + 1 },
           other_this)
        else
          ({ member_score with
              num_strong_votes_different := member_score.num_strong_votes_different + 1 },
           other_this)
      else
        if aligned then
          ({ member_score with num_votes_same := member_score.num_votes_same + 1 }, other_this)
        else if is_abstention then
          ({ member_score with
              num_votes_abstained := member_score.num_votes_abstained + 1 }, other_this)
        else
          ({ member_score with
              num_votes_different := member_score.num_votes_different + 1 }, other_this)
    else
      if is_strong then
        if aligned then
          (member_score,
           { other_this with num_strong_votes_same := other_this.num_strong_votes_same + 1 })
        else if is_abstention then
          (member_score,
           { other_this with
              num_strong_votes_abstained := other_this.num_strong_votes_abstained + 1 })
        else
          (member_score,
           { other_this with
              num_strong_votes_different := other_this.num_strong_votes_different + 1 })
      else
        if aligned then
          (member_score,
           { other_this with num_votes_same := other_this.num_votes_same + 1 })
        else if is_abstention then
          (member_score,
           { other_this with num_votes_abstained := other_this.num_votes_abstained + 1 })
        else
          (member_score,
           { other_this with num_votes_different := other_this.num_votes_different + 1 })

/-- One iteration of the validator's division loop: the guard conditions
in source order (neutral, chamber, comparison period, target
membership), then the member loop over the date-covering party-or-self
memberships, then the per-division reduction added into the running
other score when any comparator was counted.  The comparison-period
check is modelled from the spec as interval containment
(`PolicyTimePeriod` is not among the sources). -/
def slowProcessLink (ms : List MembershipRow) (person_id : Nat) (party : String)
    (chamber : AllowedChambers) (start_date end_date : Nat)
    (acc : Score × Score) (link : DivisionLink) : Score × Score :=
  if decide (link.alignment = PolicyDirection.NEUTRAL) then acc
  else if !(decide (link.decision.chamber = chamber)) then acc
  else if !(decide (start_date ≤ link.decision.date) &&
      decide (link.decision.date ≤ end_date)) then acc
  else if !((get_mp_dates ms person_id).any fun m =>
      decide (m.start_date ≤ link.decision.date) &&
        decide (link.decision.date ≤ m.end_date)) then acc
  else
    let rel_party_members :=
      (get_party_members_or_person ms party person_id).filter fun m =>
        decide (m.start_date ≤ link.decision.date) &&
          decide (link.decision.date ≤ m.end_date)
    let res := rel_party_members.foldl (slowMemberUpdate person_id link) (acc.1, {})
    if res.2.total_votes > 0 then (res.1, Score.addVotes acc.2 res.2.reduce)
    else (res.1, acc.2)

/-- One iteration of the validator's agreement loop: guards in source
order (target membership, comparison period, chamber, neutral), then the
agreement tally.  The period check is spec-modelled as for the division
loop. -/
def slowAgreementUpdate (ms : List MembershipRow) (person_id : Nat)
    (chamber : AllowedChambers) (start_date end_date : Nat)
    (acc : Score) (al : AgreementLink) : Score :=
  if !((get_mp_dates ms person_id).any fun m =>
      decide (m.start_date ≤ al.date) && decide (al.date ≤ m.end_date)) then acc
  else if !(decide (start_date ≤ al.date) && decide (al.date ≤ end_date)) then acc
  else if !(decide (al.chamber = chamber)) then acc
  else if decide (al.alignment = PolicyDirection.NEUTRAL) then acc
  else if decide (al.strength = PolicyStrength.STRONG) then
    if decide (al.alignment = PolicyDirection.AGREE) then
      { acc with num_strong_agreements_same := acc.num_strong_agreements_same + 1 }
    else
      { acc with num_strong_agreements_different := acc.num_strong_agreements_different + 1 }
  else
    if decide (al.alignment = PolicyDirection.AGREE) then
      { acc with num_agreements_same := acc.num_agreements_same + 1 }
    else
      { acc with num_agreements_different := acc.num_agreements_different + 1 }

/-- Source `get_scores_slow` (vr_validator.py): tally the agreements,
then walk the division links member by member, reducing the non-target
tallies per division. -/
def get_scores_slow (ms : List MembershipRow) (person_id : Nat) (party : String)
    (policy : Policy) (start_date end_date : Nat) : PolicyComparison :=
  let chamber := policy.chamber
  let member_score0 :=
    policy.agreement_links.foldl
      (slowAgreementUpdate ms person_id chamber start_date end_date) {}
  let res := policy.division_links.foldl
    (slowProcessLink ms person_id party chamber start_date end_date) (member_score0, {})
  { target_distribution := res.1, other_distribution := res.2 }

/-! ## Fast aggregator path
(`policy_alignment` / `comparisons_by_policy_vote` table macros in
apps/policies/data_sources.py, `PolicyPivotTable` in
apps/policies/queries.py, assembled by `validate_approach`). -/

/-- Source macro `get_effective_vote`: tellers fold into aye/no. -/
def get_effective_vote : VotePosition → VotePosition
  | VotePosition.tellaye => VotePosition.aye
  | VotePosition.tellno => VotePosition.no
  | v => v

/-- Source cached table `pw_vote_with_absences`: for each membership of
the division's chamber covering the division date, the member's
effective vote, or a synthesised `absent` when no vote is recorded. -/
def pw_vote_with_absences (ms : List MembershipRow) (d : Division) :
    List (MembershipRow × VotePosition) :=
  (ms.filter fun m =>
      decide (m.chamber = d.chamber) &&
        decide (m.start_date ≤ d.date) && decide (d.date ≤ m.end_date)).map
    fun m =>
      (m,
        match List.lookup m.person_id d.votes with
        | some v => get_effective_vote v
        | none => VotePosition.absent)

/-- Source table macro `target_memberships`: the person's memberships in
the requested chamber (the date restriction lives in the join
condition of `policy_alignment`). -/
def target_memberships (ms : List MembershipRow) (person_id : Nat)
    (chamber_slug : AllowedChambers) : List MembershipRow :=
  ms.filter fun m =>
    decide (m.person_id = person_id) && decide (m.chamber = chamber_slug)

/-- One output row of the `policy_alignment` table macro. -/
structure AlignmentRow where
  is_target : Bool
  strong_int : Bool
  division_id : Nat
  answer_agreed : ℚ
  answer_disagreed : ℚ
  abstained : ℚ
  absent : ℚ
  deriving DecidableEq, Repr

/-- The row built by `policy_alignment` for one member/vote pair: the
case expressions on `(vote, alignment)` for agreement/disagreement, and
the abstention/absence indicators on the effective vote. -/
def mkAlignmentRow (person_id : Nat) (link : DivisionLink) (m : MembershipRow)
    (v : VotePosition) : AlignmentRow :=
  { is_target := decide (m.person_id = person_id)
    strong_int := decide (link.strength = PolicyStrength.STRONG)
    division_id := link.decision.division_id
    answer_agreed :=
      if (v = VotePosition.aye ∧ link.alignment = PolicyDirection.AGREE) ∨
          (v = VotePosition.no ∧ link.alignment = PolicyDirection.AGAINST) then 1 else 0
    answer_disagreed :=
      if (v = VotePosition.aye ∧ link.alignment = PolicyDirection.AGAINST) ∨
          (v = VotePosition.no ∧ link.alignment = PolicyDirection.AGREE) then 1 else 0
    abstained := if v = VotePosition.abstention then 1 else 0
    absent := if v = VotePosition.absent then 1 else 0 }

/-- Source table macro `policy_alignment`: for each non-neutral link of
the policy in the requested chamber whose division date falls in the
requested window (the window corresponds to `PolicyPivotTable`'s
start/end-date parameters, spec-modelled), joined against the target's
covering memberships in that chamber, one row per covering member of
the division's chamber who is the target or belongs to the comparison
party. -/
def policy_alignment (ms : List MembershipRow) (person_id : Nat)
    (chamber_slug : AllowedChambers) (party_id : String)
    (policy : Policy) (start_date end_date : Nat) : List AlignmentRow :=
  (policy.division_links.filter fun link =>
      !(decide (link.alignment = PolicyDirection.NEUTRAL)) &&
        decide (link.decision.chamber = chamber_slug) &&
        decide (policy.chamber = chamber_slug) &&
        decide (start_date ≤ link.decision.date) &&
        decide (link.decision.date ≤ end_date)).flatMap
    fun link =>
      ((target_memberships ms person_id chamber_slug).filter fun tm =>
          decide (tm.start_date ≤ link.decision.date) &&
            decide (link.decision.date ≤ tm.end_date)).flatMap
        fun _ =>
          (pw_vote_with_absences ms link.decision).filterMap fun mv =>
            if decide (mv.1.person_id = person_id) ||
                decide (mv.1.party_reduced = party_id) then
              some (mkAlignmentRow person_id link mv.1 mv.2)
            else none

/-- Distinct keys in order of first appearance (the `GROUP BY` key set;
the first argument accumulates the keys already seen). -/
def distinctKeysAux {K : Type} [DecidableEq K] : List K → List K → List K
  | _, [] => []
  | seen, k :: ks =>
    if k ∈ seen then distinctKeysAux seen ks
    else k :: distinctKeysAux (k :: seen) ks

/-- The `GROUP BY is_target, policy_id, division_id` key of a row (a
single policy is in play, so the key is the target flag and the
division). -/
def alignKey (r : AlignmentRow) : Bool × Nat :=
  (r.is_target, r.division_id)

/-- One output row of the `comparisons_by_policy_vote` table macro. -/
structure ComparisonRow where
  is_target : Bool
  strong_int : Bool
  division_id : Nat
  num_divisions_agreed : ℚ
  num_divisions_disagreed : ℚ
  num_divisions_abstained : ℚ
  num_divisions_absent : ℚ
  deriving DecidableEq, Repr

/-- Source table macro `comparisons_by_policy_vote`: group the alignment
rows by (is_target, division), take `ANY_VALUE(strong_int)` and the
per-group fractional outcome sums (`sum(...) / count(*)`). -/
def comparisons_by_policy_vote (rows : List AlignmentRow) : List ComparisonRow :=
  (distinctKeysAux [] (rows.map alignKey)).map fun k =>
    let g := rows.filter fun r => decide (alignKey r = k)
    let total : ℚ := g.length
    { is_target := k.1
      strong_int := (g.head?.map AlignmentRow.strong_int).getD false
      division_id := k.2
      num_divisions_agreed := (g.map AlignmentRow.answer_agreed).sum / total
      num_divisions_disagreed := (g.map AlignmentRow.answer_disagreed).sum / total
      num_divisions_abstained := (g.map AlignmentRow.abstained).sum / total
      num_divisions_absent := (g.map AlignmentRow.absent).sum / total }

/-- Source `PolicyPivotTable`: for one `is_target` group, the eight
filtered sums over the comparison rows (weak = `strong_int = 0`,
strong = `strong_int = 1`); a missing group yields the zero record,
matching `fillna(0)` / the `Score()` default. -/
def pivotScore (rows : List AlignmentRow) (is_target : Bool) : Score :=
  let cs := comparisons_by_policy_vote rows
  let f : Bool → (ComparisonRow → ℚ) → ℚ := fun strong proj =>
    ((cs.filter fun c =>
        decide (c.is_target = is_target) && decide (c.strong_int = strong)).map proj).sum
  { num_votes_same := f false ComparisonRow.num_divisions_agreed
    num_strong_votes_same := f true ComparisonRow.num_divisions_agreed
    num_votes_different := f false ComparisonRow.num_divisions_disagreed
    num_strong_votes_different := f true ComparisonRow.num_divisions_disagreed
    num_votes_absent := f false ComparisonRow.num_divisions_absent
    num_strong_votes_absent := f true ComparisonRow.num_divisions_absent
    num_votes_abstained := f false ComparisonRow.num_divisions_abstained
    num_strong_votes_abstained := f true ComparisonRow.num_divisions_abstained }

/-- The fast half of `validate_approach`: the pivot rows for the target,
and for the comparison group when present — falling back to the
target's own distribution when no comparison row exists
(`di.get(0, td)`). -/
def fast_comparison (ms : List MembershipRow) (person_id : Nat)
    (chamber_slug : AllowedChambers) (party_id : String)
    (policy : Policy) (start_date end_date : Nat) : PolicyComparison :=
  let rows := policy_alignment ms person_id chamber_slug party_id policy start_date end_date
  let td := pivotScore rows true
  let od :=
    if (comparisons_by_policy_vote rows).any (fun c => decide (c.is_target = false)) then
      pivotScore rows false
    else td
  { target_distribution := td, other_distribution := od }

/-- Source `validate_approach`'s `results_match`: the slow result
compares equal (within tolerance) to the fast one. -/
def validate_results_match (ms : List MembershipRow) (person_id : Nat)
    (chamber_slug : AllowedChambers) (party_id : String)
    (policy : Policy) (start_date end_date : Nat) : Bool :=
  PolicyComparison.eq
    (get_scores_slow ms person_id party_id policy start_date end_date)
    (fast_comparison ms person_id chamber_slug party_id policy start_date end_date)

/-! ## Proof scaffolding: association-list lookups -/

/-- Lookup distributes over append. -/
theorem lookupAppend {β : Type} (a : Nat) (l1 l2 : List (Nat × β)) :
    List.lookup a (l1 ++ l2) =
      (match List.lookup a l1 with
        | some v => some v
        | none => List.lookup a l2) := by
  induction l1 with
  | nil => simp
  | cons kv es ih =>
    obtain ⟨k, v⟩ := kv
    by_cases hak : a = k
    · subst hak
      simp [List.lookup_cons]
    · have hbeq : (a == k) = false := by simpa using hak
      simp only [List.cons_append, List.lookup_cons, hbeq]
      exact ih

/-- Lookup misses when the key is absent. -/
theorem lookupNoneOfNotMem {β : Type} (a : Nat) (l : List (Nat × β))
    (h : a ∉ l.map Prod.fst) : List.lookup a l = none := by
  induction l with
  | nil => simp
  | cons kv es ih =>
    obtain ⟨k, v⟩ := kv
    simp only [List.map_cons, List.mem_cons] at h
    push_neg at h
    have hbeq : (a == k) = false := by simpa using h.1
    simp only [List.lookup_cons, hbeq]
    exact ih h.2

/-- With duplicate-free keys, looking up in the reversed list (the
"last entry wins" dict semantics) agrees with plain lookup. -/
theorem lookupReverse {β : Type} (a : Nat) (l : List (Nat × β))
    (hnd : (l.map Prod.fst).Nodup) : List.lookup a l.reverse = List.lookup a l := by
  induction l with
  | nil => simp
  | cons kv es ih =>
    obtain ⟨k, v⟩ := kv
    simp only [List.map_cons, List.nodup_cons] at hnd
    rw [List.reverse_cons, lookupAppend]
    by_cases hak : a = k
    · subst hak
      rw [lookupNoneOfNotMem a es.reverse (by simpa using hnd.1)]
      simp [List.lookup_cons]
    · have hbeq : (a == k) = false := by simpa using hak
      rw [ih hnd.2]
      simp only [List.lookup_cons, hbeq]
      cases List.lookup a es <;> simp [List.lookup, hbeq]

/-- A successful lookup locates a member of the list. -/
theorem lookupSomeMem {β : Type} (a : Nat) (b : β) :
    ∀ l : List (Nat × β), List.lookup a l = some b → (a, b) ∈ l := by
  intro l
  induction l with
  | nil => simp
  | cons kv es ih =>
    obtain ⟨k, v⟩ := kv
    by_cases hak : a = k
    · subst hak
      simp only [List.lookup_cons, beq_self_eq_true]
      intro hv
      cases hv
      simp
    · have hbeq : (a == k) = false := by simpa using hak
      simp only [List.lookup_cons, hbeq]
      intro hv
      exact List.mem_cons_of_mem _ (ih hv)

/-! ## Proof scaffolding: Score vote-field algebra -/

/-- The four agreement fields vanish. -/
def Score.zeroAgreements (s : Score) : Prop :=
  s.num_agreements_same = 0 ∧ s.num_strong_agreements_same = 0 ∧
    s.num_agreements_different = 0 ∧ s.num_strong_agreements_different = 0

theorem Score.zeroAgreements_empty : Score.zeroAgreements {} := by
  refine ⟨rfl, rfl, rfl, rfl⟩

theorem Score.zeroAgreements_addVotes {a b : Score} (h : a.zeroAgreements) :
    (Score.addVotes a b).zeroAgreements := by
  exact h

theorem Score.zeroAgreements_reduce {s : Score} (h : s.zeroAgreements) :
    s.reduce.zeroAgreements := by
  exact h

/-- `__add__` is associative on the vote fields. -/
theorem Score.addVotes_assoc (a b c : Score) :
    Score.addVotes (Score.addVotes a b) c = Score.addVotes a (Score.addVotes b c) := by
  simp [Score.addVotes, add_assoc]

/-- Adding the empty record changes nothing. -/
theorem Score.addVotes_empty (s : Score) : Score.addVotes s {} = s := by
  simp [Score.addVotes]

/-- Adding to the empty record keeps the other record, provided the
other record carries no agreement counts (which `__add__` would
drop). -/
theorem Score.empty_addVotes (s : Score) (h : s.zeroAgreements) :
    Score.addVotes {} s = s := by
  obtain ⟨h1, h2, h3, h4⟩ := h
  simp only [Score.addVotes]
  cases s
  simp_all [Score.mk.injEq]

/-- Totals add. -/
theorem Score.total_votes_addVotes (a b : Score) :
    (Score.addVotes a b).total_votes = a.total_votes + b.total_votes := by
  simp [Score.addVotes, Score.total_votes]
  ring

theorem Score.total_votes_empty : Score.total_votes {} = 0 := by
  simp [Score.total_votes]

/-! ## Proof scaffolding: canonical member outcome -/

/-- The four possible outcomes of a member relative to a division
link. -/
inductive VoteOutcome where
  | same
  | different
  | abstained
  | absent
  deriving DecidableEq, Repr

/-- The canonical classification of a member's behaviour on a division:
absent when no vote is recorded; otherwise aligned (aye/tellaye with
agree, no/tellno with against) counts as same, an abstention as
abstained and anything else as different.  Both embedded paths are
proved to tally according to this classification. -/
def classifyOutcome (link : DivisionLink) (m : MembershipRow) : VoteOutcome :=
  match List.lookup m.person_id link.decision.votes with
  | none => VoteOutcome.absent
  | some v =>
    if ((v = VotePosition.aye ∨ v = VotePosition.tellaye) ∧
          link.alignment = PolicyDirection.AGREE) ∨
        ((v = VotePosition.no ∨ v = VotePosition.tellno) ∧
          link.alignment = PolicyDirection.AGAINST) then
      VoteOutcome.same
    else if v = VotePosition.abstention then VoteOutcome.abstained
    else VoteOutcome.different

/-- The single-count record for one member outcome at one strength. -/
def outcomeScore (strong : Bool) : VoteOutcome → Score
  | VoteOutcome.same =>
    if strong then { num_strong_votes_same := 1 } else { num_votes_same := 1 }
  | VoteOutcome.different =>
    if strong then { num_strong_votes_different := 1 } else { num_votes_different := 1 }
  | VoteOutcome.abstained =>
    if strong then { num_strong_votes_abstained := 1 } else { num_votes_abstained := 1 }
  | VoteOutcome.absent =>
    if strong then { num_strong_votes_absent := 1 } else { num_votes_absent := 1 }

/-- Vote-field summation of a list of records. -/
def sumScores {α : Type} (f : α → Score) (l : List α) : Score :=
  l.foldr (fun x acc => Score.addVotes (f x) acc) {}

theorem sumScores_nil {α : Type} (f : α → Score) : sumScores f [] = {} := rfl

theorem sumScores_cons {α : Type} (f : α → Score) (x : α) (l : List α) :
    sumScores f (x :: l) = Score.addVotes (f x) (sumScores f l) := rfl

theorem outcomeScore_zeroAgreements (b : Bool) (o : VoteOutcome) :
    (outcomeScore b o).zeroAgreements := by
  cases o <;> cases b <;> exact ⟨rfl, rfl, rfl, rfl⟩

theorem sumScores_zeroAgreements {α : Type} (f : α → Score) (l : List α)
    (h : ∀ x ∈ l, (f x).zeroAgreements) : (sumScores f l).zeroAgreements := by
  cases l with
  | nil => exact Score.zeroAgreements_empty
  | cons x xs =>
    rw [sumScores_cons]
    exact Score.zeroAgreements_addVotes (h x (List.mem_cons_self x xs))

theorem outcomeScore_total (b : Bool) (o : VoteOutcome) :
    (outcomeScore b o).total_votes = 1 := by
  cases o <;> cases b <;> simp [outcomeScore, Score.total_votes]

/-- The total of the canonical member tallies counts the members. -/
theorem sumScores_outcome_total {α : Type} (g : α → Score)
    (hg : ∀ x, (g x).total_votes = 1) (l : List α) :
    (sumScores g l).total_votes = l.length := by
  induction l with
  | nil => simp [sumScores_nil, Score.total_votes_empty]
  | cons x xs ih =>
    rw [sumScores_cons, Score.total_votes_addVotes, hg, ih, List.length_cons]
    push_cast
    ring

/-- Summing over a filtered list equals summing the guarded function
over the whole list (all summands carry no agreement counts). -/
theorem sumScores_filter {α : Type} (f : α → Score) (p : α → Bool) (l : List α)
    (h : ∀ x ∈ l, (f x).zeroAgreements) :
    sumScores f (l.filter p) = sumScores (fun x => if p x then f x else {}) l := by
  induction l with
  | nil => simp [sumScores_nil]
  | cons x xs ih =>
    have hxs : ∀ y ∈ xs, (f y).zeroAgreements := fun y hy =>
      h y (List.mem_cons_of_mem _ hy)
    cases hp : p x
    · rw [List.filter_cons_of_neg (by simp [hp]), sumScores_cons, ih hxs, hp]
      rw [if_neg (by simp)]
      refine (Score.empty_addVotes _ ?_).symm
      refine sumScores_zeroAgreements _ _ fun y hy => ?_
      by_cases hpy : p y
      · simpa [hpy] using hxs y hy
      · simp only [hpy, if_neg, Bool.false_eq_true]
        exact Score.zeroAgreements_empty
    · rw [List.filter_cons_of_pos (by simp [hp]), sumScores_cons, sumScores_cons, ih hxs, hp]
      rw [if_pos rfl]

/-! ## Proof scaffolding: list helpers -/

/-- A `filterMap` with an if-guard is a filter followed by a map. -/
theorem filterMapIf {α β : Type} (p : α → Bool) (g : α → β) (l : List α) :
    (l.filterMap fun x => if p x then some (g x) else none) = (l.filter p).map g := by
  induction l with
  | nil => simp
  | cons x xs ih =>
    cases hp : p x
    · rw [List.filterMap_cons, List.filter_cons_of_neg (by simp [hp])]
      simp only [hp, Bool.false_eq_true, if_neg]
      simpa using ih
    · rw [List.filterMap_cons, List.filter_cons_of_pos (by simp [hp])]
      simp only [hp, if_pos, List.map_cons]
      simpa using ih

/-- A duplicate-free list all of whose members equal `a` is `[a]` or
empty, decided by membership. -/
theorem nodupAllEqSingleton {K : Type} [DecidableEq K] (l : List K) (a : K)
    (hnd : l.Nodup) (hall : ∀ x ∈ l, x = a) :
    l = if a ∈ l then [a] else [] := by
  induction l with
  | nil => simp
  | cons x xs ih =>
    have hx : x = a := hall x (List.mem_cons_self x xs)
    subst hx
    simp only [List.nodup_cons] at hnd
    have hxs : xs = [] := by
      cases hxse : xs with
      | nil => rfl
      | cons y ys =>
        exfalso
        have hy : y = x := hall y (by simp [hxse])
        apply hnd.1
        rw [hxse, hy]
        exact List.mem_cons_self x ys
    subst hxs
    simp

/-! ## Proof scaffolding: distinct group keys -/

theorem mem_distinctKeysAux {K : Type} [DecidableEq K] (a : K) :
    ∀ (l seen : List K), a ∈ distinctKeysAux seen l ↔ a ∈ l ∧ a ∉ seen := by
  intro l
  induction l with
  | nil => intro seen; simp [distinctKeysAux]
  | cons k ks ih =>
    intro seen
    by_cases hk : k ∈ seen
    · rw [distinctKeysAux, if_pos hk, ih]
      constructor
      · rintro ⟨h1, h2⟩
        exact ⟨List.mem_cons_of_mem _ h1, h2⟩
      · rintro ⟨h1, h2⟩
        rcases List.mem_cons.mp h1 with h1 | h1
        · exact absurd (h1 ▸ hk) h2
        · exact ⟨h1, h2⟩
    · rw [distinctKeysAux, if_neg hk]
      constructor
      · intro h
        rcases List.mem_cons.mp h with h | h
        · exact ⟨h ▸ List.mem_cons_self k ks, h ▸ hk⟩
        · rw [ih] at h
          refine ⟨List.mem_cons_of_mem _ h.1, fun hs => h.2 (List.mem_cons_of_mem _ hs)⟩
      · rintro ⟨h1, h2⟩
        rcases List.mem_cons.mp h1 with h1 | h1
        · exact h1 ▸ List.mem_cons_self _ _
        · by_cases hak : a = k
          · exact hak ▸ List.mem_cons_self _ _
          · refine List.mem_cons_of_mem _ ?_
            rw [ih]
            refine ⟨h1, fun hs => ?_⟩
            rcases List.mem_cons.mp hs with hs | hs
            · exact hak hs
            · exact h2 hs

theorem nodup_distinctKeysAux {K : Type} [DecidableEq K] :
    ∀ (l seen : List K), (distinctKeysAux seen l).Nodup := by
  intro l
  induction l with
  | nil => intro seen; simp [distinctKeysAux]
  | cons k ks ih =>
    intro seen
    by_cases hk : k ∈ seen
    · rw [distinctKeysAux, if_pos hk]
      exact ih seen
    · rw [distinctKeysAux, if_neg hk]
      refine List.nodup_cons.mpr ⟨fun hmem => ?_, ih (k :: seen)⟩
      rw [mem_distinctKeysAux] at hmem
      exact hmem.2 (List.mem_cons_self k seen)

theorem distinctKeysAux_congr {K : Type} [DecidableEq K] :
    ∀ (l s1 s2 : List K), (∀ x ∈ l, x ∈ s1 ↔ x ∈ s2) →
      distinctKeysAux s1 l = distinctKeysAux s2 l := by
  intro l
  induction l with
  | nil => intro s1 s2 _; rfl
  | cons k ks ih =>
    intro s1 s2 h
    have hk : k ∈ s1 ↔ k ∈ s2 := h k (List.mem_cons_self k ks)
    by_cases hk1 : k ∈ s1
    · rw [distinctKeysAux, if_pos hk1, distinctKeysAux, if_pos (hk.mp hk1)]
      exact ih s1 s2 fun x hx => h x (List.mem_cons_of_mem _ hx)
    · rw [distinctKeysAux, if_neg hk1, distinctKeysAux, if_neg (fun h2 => hk1 (hk.mpr h2))]
      congr 1
      refine ih (k :: s1) (k :: s2) fun x hx => ?_
      simp only [List.mem_cons]
      rw [h x (List.mem_cons_of_mem _ hx)]

theorem distinctKeysAux_append {K : Type} [DecidableEq K] :
    ∀ (a b seen : List K), (∀ x ∈ b, x ∉ a) →
      distinctKeysAux seen (a ++ b) =
        distinctKeysAux seen a ++ distinctKeysAux seen b := by
  intro a
  induction a with
  | nil => intro b seen _; simp [distinctKeysAux]
  | cons k ks ih =>
    intro b seen hdis
    have hdis' : ∀ x ∈ b, x ∉ ks := fun x hx hm =>
      hdis x hx (List.mem_cons_of_mem _ hm)
    by_cases hk : k ∈ seen
    · rw [List.cons_append, distinctKeysAux, if_pos hk, distinctKeysAux, if_pos hk]
      exact ih b seen hdis'
    · rw [List.cons_append, distinctKeysAux, if_neg hk, distinctKeysAux, if_neg hk]
      rw [ih b (k :: seen) hdis', List.cons_append]
      congr 2
      refine distinctKeysAux_congr b (k :: seen) seen fun x hx => ?_
      have hxk : x ≠ k := fun he => hdis x hx (he ▸ List.mem_cons_self k ks)
      simp [List.mem_cons, hxk]

/-! ## Proof scaffolding: canonical member lists and per-link deltas -/

/-- Members of the commons whose membership covers date `d`. -/
def commonsCoveringMembers (ms : List MembershipRow) (d : Nat) : List MembershipRow :=
  ms.filter fun m =>
    decide (m.chamber = AllowedChambers.commons) &&
      (decide (m.start_date ≤ d) && decide (d ≤ m.end_date))

/-- The target's covering commons memberships on date `d`. -/
def canonTargets (ms : List MembershipRow) (person_id d : Nat) : List MembershipRow :=
  (commonsCoveringMembers ms d).filter fun m => decide (m.person_id = person_id)

/-- The non-target comparison-party covering commons memberships on date
`d`. -/
def canonOthers (ms : List MembershipRow) (person_id : Nat) (party : String)
    (d : Nat) : List MembershipRow :=
  (commonsCoveringMembers ms d).filter fun m =>
    decide (m.party_reduced = party) && !(decide (m.person_id = person_id))

/-- Strength flag of a link. -/
def linkStrongB (link : DivisionLink) : Bool :=
  decide (link.strength = PolicyStrength.STRONG)

/-- The canonical single-member tally for a link. -/
def linkOutcome (link : DivisionLink) (m : MembershipRow) : Score :=
  outcomeScore (linkStrongB link) (classifyOutcome link m)

theorem linkOutcome_zeroAgreements (link : DivisionLink) (m : MembershipRow) :
    (linkOutcome link m).zeroAgreements :=
  outcomeScore_zeroAgreements _ _

theorem linkOutcome_total (link : DivisionLink) (m : MembershipRow) :
    (linkOutcome link m).total_votes = 1 :=
  outcomeScore_total _ _

/-- Pointwise-equal summand functions sum alike. -/
theorem sumScores_congr {α : Type} (f g : α → Score) (l : List α)
    (h : ∀ x ∈ l, f x = g x) : sumScores f l = sumScores g l := by
  induction l with
  | nil => rfl
  | cons x xs ih =>
    rw [sumScores_cons, sumScores_cons, h x (List.mem_cons_self x xs),
      ih fun y hy => h y (List.mem_cons_of_mem _ hy)]

/-- Eligibility of a division link, canonical form: non-neutral, in the
commons, inside the comparison window, with the target holding a
covering commons membership. -/
def canonCond (ms : List MembershipRow) (person_id : Nat)
    (start_date end_date : Nat) (link : DivisionLink) : Prop :=
  ¬(link.alignment = PolicyDirection.NEUTRAL) ∧
    link.decision.chamber = AllowedChambers.commons ∧
    (start_date ≤ link.decision.date ∧ link.decision.date ≤ end_date) ∧
    canonTargets ms person_id link.decision.date ≠ []

instance (ms : List MembershipRow) (person_id start_date end_date : Nat)
    (link : DivisionLink) :
    Decidable (canonCond ms person_id start_date end_date link) := by
  unfold canonCond
  infer_instance

/-- The canonical per-link contribution to the target's distribution. -/
def canonTargetDelta (ms : List MembershipRow) (person_id : Nat)
    (start_date end_date : Nat) (link : DivisionLink) : Score :=
  if canonCond ms person_id start_date end_date link then
    sumScores (linkOutcome link) (canonTargets ms person_id link.decision.date)
  else {}

/-- The canonical per-link contribution to the comparison distribution:
the per-division reduced fraction record when any comparator exists. -/
def canonOtherDelta (ms : List MembershipRow) (person_id : Nat) (party : String)
    (start_date end_date : Nat) (link : DivisionLink) : Score :=
  if canonCond ms person_id start_date end_date link then
    if 0 < (canonOthers ms person_id party link.decision.date).length then
      (sumScores (linkOutcome link) (canonOthers ms person_id party link.decision.date)).reduce
    else {}
  else {}

theorem canonTargetDelta_zeroAgreements (ms : List MembershipRow)
    (person_id start_date end_date : Nat) (link : DivisionLink) :
    (canonTargetDelta ms person_id start_date end_date link).zeroAgreements := by
  unfold canonTargetDelta
  split
  · exact sumScores_zeroAgreements _ _ fun m _ => linkOutcome_zeroAgreements link m
  · exact Score.zeroAgreements_empty

theorem canonOtherDelta_zeroAgreements (ms : List MembershipRow)
    (person_id : Nat) (party : String) (start_date end_date : Nat)
    (link : DivisionLink) :
    (canonOtherDelta ms person_id party start_date end_date link).zeroAgreements := by
  unfold canonOtherDelta
  split
  · split
    · exact Score.zeroAgreements_reduce
        (sumScores_zeroAgreements _ _ fun m _ => linkOutcome_zeroAgreements link m)
    · exact Score.zeroAgreements_empty
  · exact Score.zeroAgreements_empty

/-! ## Proof scaffolding: the slow path in canonical form -/

/-- The validator's per-member update adds exactly one canonical
single-outcome tally, to the member score for the target and to the
per-division score otherwise. -/
theorem slowMemberUpdate_eq (person_id : Nat) (link : DivisionLink)
    (hnd : (link.decision.votes.map Prod.fst).Nodup)
    (acc : Score × Score) (m : MembershipRow) :
    slowMemberUpdate person_id link acc m =
      if person_id = m.person_id then
        (Score.addVotes acc.1 (linkOutcome link m), acc.2)
      else
        (acc.1, Score.addVotes acc.2 (linkOutcome link m)) := by
  obtain ⟨dec, al, str⟩ := link
  simp only [slowMemberUpdate, linkOutcome, classifyOutcome, linkStrongB]
  rw [lookupReverse _ _ hnd]
  cases hlk : List.lookup m.person_id dec.votes with
  | none =>
    by_cases ht : person_id = m.person_id <;> cases str <;>
      simp [ht, outcomeScore, Score.addVotes, add_zero]
  | some v =>
    cases v <;> cases al <;> cases str <;>
      (by_cases ht : person_id = m.person_id <;>
        simp [ht, outcomeScore, Score.addVotes, add_zero])

/-- The validator's member loop, in canonical form: the target rows add
into the member score, the others into the fresh per-division score. -/
theorem slowInnerFold (person_id : Nat) (link : DivisionLink)
    (hnd : (link.decision.votes.map Prod.fst).Nodup) :
    ∀ (rel : List MembershipRow) (S T : Score),
      rel.foldl (slowMemberUpdate person_id link) (S, T) =
        (Score.addVotes S
          (sumScores (linkOutcome link)
            (rel.filter fun m => decide (person_id = m.person_id))),
         Score.addVotes T
          (sumScores (linkOutcome link)
            (rel.filter fun m => !(decide (person_id = m.person_id))))) := by
  intro rel
  induction rel with
  | nil =>
    intro S T
    simp [sumScores_nil, Score.addVotes_empty]
  | cons m rest ih =>
    intro S T
    rw [List.foldl_cons, slowMemberUpdate_eq person_id link hnd]
    by_cases ht : person_id = m.person_id
    · rw [if_pos ht, ih,
        List.filter_cons_of_pos (by simp [ht]),
        List.filter_cons_of_neg (by simp [ht]),
        sumScores_cons, ← Score.addVotes_assoc]
    · rw [if_neg ht, ih,
        List.filter_cons_of_neg (by simp [ht]),
        List.filter_cons_of_pos (by simp [ht]),
        sumScores_cons, ← Score.addVotes_assoc]

/-- The validator's target rows are the canonical covering target
memberships. -/
theorem slowRel_targets_eq (ms : List MembershipRow) (party : String)
    (person_id d : Nat) :
    (((get_party_members_or_person ms party person_id).filter fun m =>
        decide (m.start_date ≤ d) && decide (d ≤ m.end_date)).filter fun m =>
        decide (person_id = m.person_id)) = canonTargets ms person_id d := by
  unfold get_party_members_or_person canonTargets commonsCoveringMembers
  rw [List.filter_filter, List.filter_filter, List.filter_filter]
  refine List.filter_congr fun m _ => ?_
  by_cases hp : person_id = m.person_id
  · have e1 : decide (person_id = m.person_id) = true := by simp [hp]
    have e2 : decide (m.person_id = person_id) = true := by simp [hp.symm]
    simp only [e1, e2]
    simp [Bool.and_comm]
  · have hp2 : ¬(m.person_id = person_id) := fun h => hp h.symm
    have e1 : decide (person_id = m.person_id) = false := by simp [hp]
    have e2 : decide (m.person_id = person_id) = false := by simp [hp2]
    simp only [e1, e2]
    simp

/-- The validator's comparator rows are the canonical covering
non-target party memberships. -/
theorem slowRel_others_eq (ms : List MembershipRow) (party : String)
    (person_id d : Nat) :
    (((get_party_members_or_person ms party person_id).filter fun m =>
        decide (m.start_date ≤ d) && decide (d ≤ m.end_date)).filter fun m =>
        !(decide (person_id = m.person_id))) = canonOthers ms person_id party d := by
  unfold get_party_members_or_person canonOthers commonsCoveringMembers
  rw [List.filter_filter, List.filter_filter, List.filter_filter]
  refine List.filter_congr fun m _ => ?_
  by_cases hp : person_id = m.person_id
  · have e1 : decide (person_id = m.person_id) = true := by simp [hp]
    have e2 : decide (m.person_id = person_id) = true := by simp [hp.symm]
    simp only [e1, e2]
    simp
  · have hp2 : ¬(m.person_id = person_id) := fun h => hp h.symm
    have e1 : decide (person_id = m.person_id) = false := by simp [hp]
    have e2 : decide (m.person_id = person_id) = false := by simp [hp2]
    simp only [e1, e2]
    by_cases hq : m.party_reduced = party
    · by_cases hc : m.chamber = AllowedChambers.commons <;> simp [hq, hc, Bool.and_comm]
    · simp [hq]

/-- The validator's target-membership guard holds exactly when the
canonical target list is nonempty. -/
theorem targetCheck_iff (ms : List MembershipRow) (person_id d : Nat) :
    (((get_mp_dates ms person_id).any fun m =>
        decide (m.start_date ≤ d) && decide (d ≤ m.end_date)) = true) ↔
      canonTargets ms person_id d ≠ [] := by
  have hne : (canonTargets ms person_id d ≠ []) ↔
      ∃ m, m ∈ canonTargets ms person_id d := by
    rw [Ne, List.eq_nil_iff_forall_not_mem]
    push_neg
    rfl
  rw [List.any_eq_true, hne]
  unfold canonTargets commonsCoveringMembers get_mp_dates
  constructor
  · rintro ⟨m, hm, hcov⟩
    rw [List.mem_filter] at hm
    simp only [Bool.and_eq_true, decide_eq_true_eq] at hm hcov
    refine ⟨m, ?_⟩
    rw [List.mem_filter, List.mem_filter]
    simp only [Bool.and_eq_true, decide_eq_true_eq]
    exact ⟨⟨hm.1, hm.2.1, hcov⟩, hm.2.2⟩
  · rintro ⟨m, hm⟩
    rw [List.mem_filter, List.mem_filter] at hm
    simp only [Bool.and_eq_true, decide_eq_true_eq] at hm
    refine ⟨m, ?_, ?_⟩
    · rw [List.mem_filter]
      simp only [Bool.and_eq_true, decide_eq_true_eq]
      exact ⟨hm.1.1, hm.1.2.1, hm.2⟩
    · simp only [Bool.and_eq_true, decide_eq_true_eq]
      exact hm.1.2.2

/-- One iteration of the validator's division loop, in canonical form
(for a commons policy): the canonical per-link deltas are added to the
running member and other scores. -/
theorem slowProcessLink_canon (ms : List MembershipRow) (person_id : Nat)
    (party : String) (start_date end_date : Nat) (link : DivisionLink)
    (hnd : (link.decision.votes.map Prod.fst).Nodup)
    (acc : Score × Score) :
    slowProcessLink ms person_id party AllowedChambers.commons start_date end_date acc link =
      (Score.addVotes acc.1 (canonTargetDelta ms person_id start_date end_date link),
       Score.addVotes acc.2 (canonOtherDelta ms person_id party start_date end_date link)) := by
  by_cases h1 : link.alignment = PolicyDirection.NEUTRAL
  · have hcc : ¬canonCond ms person_id start_date end_date link := fun hcc => hcc.1 h1
    rw [slowProcessLink, if_pos (by simp [h1]), canonTargetDelta, if_neg hcc,
      canonOtherDelta, if_neg hcc, Score.addVotes_empty, Score.addVotes_empty]
  · by_cases h2 : link.decision.chamber = AllowedChambers.commons
    · by_cases h3 : start_date ≤ link.decision.date ∧ link.decision.date ≤ end_date
      · by_cases h4 : canonTargets ms person_id link.decision.date ≠ []
        · have hany := (targetCheck_iff ms person_id link.decision.date).mpr h4
          have hcc : canonCond ms person_id start_date end_date link :=
            ⟨h1, h2, h3, h4⟩
          have hoz : (sumScores (linkOutcome link)
              (canonOthers ms person_id party link.decision.date)).zeroAgreements :=
            sumScores_zeroAgreements _ _ fun m _ => linkOutcome_zeroAgreements link m
          rw [slowProcessLink, if_neg (by simp [h1]), if_neg (by simp [h2]),
            if_neg (by simp [h3.1, h3.2]), if_neg (by simp [hany])]
          simp only [slowInnerFold person_id link hnd, slowRel_targets_eq,
            slowRel_others_eq, Score.empty_addVotes _ hoz,
            sumScores_outcome_total (linkOutcome link) (linkOutcome_total link)]
          rw [canonTargetDelta, if_pos hcc, canonOtherDelta, if_pos hcc]
          by_cases hlen : 0 < (canonOthers ms person_id party link.decision.date).length
          · rw [if_pos (by exact_mod_cast hlen), if_pos hlen]
          · rw [if_neg (by exact_mod_cast hlen), if_neg hlen, Score.addVotes_empty]
        · have hcc : ¬canonCond ms person_id start_date end_date link := fun hcc => h4 hcc.2.2.2
          have hany : ¬(((get_mp_dates ms person_id).any fun m =>
              decide (m.start_date ≤ link.decision.date) &&
                decide (link.decision.date ≤ m.end_date)) = true) := fun h =>
            h4 ((targetCheck_iff ms person_id link.decision.date).mp h)
          rw [slowProcessLink, if_neg (by simp [h1]), if_neg (by simp [h2]),
            if_neg (by simp [h3.1, h3.2]), if_pos (by simpa using hany),
            canonTargetDelta, if_neg hcc, canonOtherDelta, if_neg hcc,
            Score.addVotes_empty, Score.addVotes_empty]
      · have hcc : ¬canonCond ms person_id start_date end_date link := fun hcc => h3 hcc.2.2.1
        rw [slowProcessLink, if_neg (by simp [h1]), if_neg (by simp [h2]),
          if_pos (by rcases not_and_or.mp h3 with h | h <;> simp [h]),
          canonTargetDelta, if_neg hcc, canonOtherDelta, if_neg hcc,
          Score.addVotes_empty, Score.addVotes_empty]
    · have hcc : ¬canonCond ms person_id start_date end_date link := fun hcc => h2 hcc.2.1
      rw [slowProcessLink, if_neg (by simp [h1]), if_pos (by simp [h2]),
        canonTargetDelta, if_neg hcc, canonOtherDelta, if_neg hcc,
        Score.addVotes_empty, Score.addVotes_empty]

/-- The validator's division loop in canonical form: fold the canonical
per-link deltas over the links. -/
theorem slowDivisionFold_canon (ms : List MembershipRow) (person_id : Nat)
    (party : String) (start_date end_date : Nat) :
    ∀ (links : List DivisionLink),
      (∀ link ∈ links, (link.decision.votes.map Prod.fst).Nodup) →
      ∀ acc : Score × Score,
        links.foldl
            (slowProcessLink ms person_id party AllowedChambers.commons start_date end_date)
            acc =
          (Score.addVotes acc.1
            (sumScores (canonTargetDelta ms person_id start_date end_date) links),
           Score.addVotes acc.2
            (sumScores (canonOtherDelta ms person_id party start_date end_date) links)) := by
  intro links
  induction links with
  | nil =>
    intro _ acc
    simp [sumScores_nil, Score.addVotes_empty]
  | cons L rest ih =>
    intro hnd acc
    rw [List.foldl_cons,
      slowProcessLink_canon ms person_id party start_date end_date L
        (hnd L (List.mem_cons_self L rest)) acc,
      ih (fun l hl => hnd l (List.mem_cons_of_mem _ hl))]
    rw [sumScores_cons, sumScores_cons, ← Score.addVotes_assoc, ← Score.addVotes_assoc]

/-- Projection tuple of the eight vote fields. -/
def Score.voteFields (s : Score) : List ℚ :=
  [s.num_votes_same, s.num_strong_votes_same, s.num_votes_different,
   s.num_strong_votes_different, s.num_votes_absent, s.num_strong_votes_absent,
   s.num_votes_abstained, s.num_strong_votes_abstained]

/-- The agreement loop never touches a vote field. -/
theorem slowAgreementUpdate_voteFields (ms : List MembershipRow) (person_id : Nat)
    (chamber : AllowedChambers) (start_date end_date : Nat)
    (acc : Score) (al : AgreementLink) :
    (slowAgreementUpdate ms person_id chamber start_date end_date acc al).voteFields =
      acc.voteFields := by
  unfold slowAgreementUpdate
  repeat' split
  all_goals rfl

/-- Folding the agreement loop leaves the vote fields alone. -/
theorem slowAgreementFold_voteFields (ms : List MembershipRow) (person_id : Nat)
    (chamber : AllowedChambers) (start_date end_date : Nat) :
    ∀ (als : List AgreementLink) (acc : Score),
      (als.foldl (slowAgreementUpdate ms person_id chamber start_date end_date)
          acc).voteFields = acc.voteFields := by
  intro als
  induction als with
  | nil => intro acc; rfl
  | cons al rest ih =>
    intro acc
    rw [List.foldl_cons, ih, slowAgreementUpdate_voteFields]

/-- The slow validator's result, in canonical form: the target
distribution is the agreement tally plus the summed canonical target
deltas, the comparison distribution the summed canonical reduced
per-division fractions. -/
theorem get_scores_slow_canon (ms : List MembershipRow) (person_id : Nat)
    (party : String) (policy : Policy) (start_date end_date : Nat)
    (hpc : policy.chamber = AllowedChambers.commons)
    (hnd : ∀ link ∈ policy.division_links, (link.decision.votes.map Prod.fst).Nodup) :
    get_scores_slow ms person_id party policy start_date end_date =
      { target_distribution :=
          Score.addVotes
            (policy.agreement_links.foldl
              (slowAgreementUpdate ms person_id policy.chamber start_date end_date) {})
            (sumScores (canonTargetDelta ms person_id start_date end_date)
              policy.division_links)
        other_distribution :=
          sumScores (canonOtherDelta ms person_id party start_date end_date)
            policy.division_links } := by
  unfold get_scores_slow
  rw [hpc]
  have hoz : (sumScores (canonOtherDelta ms person_id party start_date end_date)
      policy.division_links).zeroAgreements :=
    sumScores_zeroAgreements _ _ fun l _ =>
      canonOtherDelta_zeroAgreements ms person_id party start_date end_date l
  simp only [slowDivisionFold_canon ms person_id party start_date end_date
    policy.division_links hnd, Score.empty_addVotes _ hoz, hpc]

/-! ## Proof scaffolding: the fast path in canonical form -/

/-- The effective vote (or synthesised absence) the fast path sees for a
member on a division. -/
def fastVoteOf (d : Division) (m : MembershipRow) : VotePosition :=
  match List.lookup m.person_id d.votes with
  | some v => get_effective_vote v
  | none => VotePosition.absent

/-- The rows `policy_alignment` produces for a single eligible link. -/
def fastLinkRows (ms : List MembershipRow) (person_id : Nat)
    (chamber_slug : AllowedChambers) (party_id : String)
    (link : DivisionLink) : List AlignmentRow :=
  ((target_memberships ms person_id chamber_slug).filter fun tm =>
      decide (tm.start_date ≤ link.decision.date) &&
        decide (link.decision.date ≤ tm.end_date)).flatMap
    fun _ =>
      (pw_vote_with_absences ms link.decision).filterMap fun mv =>
        if decide (mv.1.person_id = person_id) ||
            decide (mv.1.party_reduced = party_id) then
          some (mkAlignmentRow person_id link mv.1 mv.2)
        else none

/-- `policy_alignment` is the per-link row construction over the
eligible links. -/
theorem policy_alignment_eq (ms : List MembershipRow) (person_id : Nat)
    (chamber_slug : AllowedChambers) (party_id : String)
    (policy : Policy) (start_date end_date : Nat) :
    policy_alignment ms person_id chamber_slug party_id policy start_date end_date =
      (policy.division_links.filter fun link =>
          !(decide (link.alignment = PolicyDirection.NEUTRAL)) &&
            decide (link.decision.chamber = chamber_slug) &&
            decide (policy.chamber = chamber_slug) &&
            decide (start_date ≤ link.decision.date) &&
            decide (link.decision.date ≤ end_date)).flatMap
        (fastLinkRows ms person_id chamber_slug party_id) := rfl

/-- The absence-completed vote list is the covering members paired with
their effective votes. -/
theorem pw_vote_with_absences_eq (ms : List MembershipRow) (d : Division) :
    pw_vote_with_absences ms d =
      (ms.filter fun m =>
          decide (m.chamber = d.chamber) &&
            decide (m.start_date ≤ d.date) && decide (d.date ≤ m.end_date)).map
        fun m => (m, fastVoteOf d m) := by
  unfold pw_vote_with_absences
  congr 1

/-- Filtering the mapped member/vote pairs by target-or-party keeps the
matching members and builds their rows. -/
theorem fastInner_aux (person_id : Nat) (party : String) (link : DivisionLink) :
    ∀ l : List MembershipRow,
      ((l.map fun m => (m, fastVoteOf link.decision m)).filterMap fun mv =>
          if decide (mv.1.person_id = person_id) ||
              decide (mv.1.party_reduced = party) then
            some (mkAlignmentRow person_id link mv.1 mv.2)
          else none) =
        (l.filter fun m =>
            decide (m.person_id = person_id) || decide (m.party_reduced = party)).map
          fun m => mkAlignmentRow person_id link m (fastVoteOf link.decision m) := by
  intro l
  induction l with
  | nil => rfl
  | cons m rest ih =>
    rw [List.map_cons, List.filterMap_cons]
    cases hp : (decide (m.person_id = person_id) || decide (m.party_reduced = party))
    · rw [List.filter_cons_of_neg (by simp [hp])]
      simp only [hp, Bool.false_eq_true, if_neg]
      exact ih
    · rw [List.filter_cons_of_pos (by simp [hp])]
      simp only [hp, if_pos, List.map_cons]
      rw [ih]

/-- The fast path's row for a member carries exactly the indicator of
the canonical outcome (given that recorded votes never contain a
literal `absent`). -/
theorem mkAlignmentRow_classify (person_id : Nat) (link : DivisionLink)
    (m : MembershipRow)
    (hne : ¬(link.alignment = PolicyDirection.NEUTRAL))
    (habs : ∀ pv ∈ link.decision.votes, pv.2 ≠ VotePosition.absent) :
    mkAlignmentRow person_id link m (fastVoteOf link.decision m) =
      { is_target := decide (m.person_id = person_id)
        strong_int := linkStrongB link
        division_id := link.decision.division_id
        answer_agreed := if classifyOutcome link m = VoteOutcome.same then 1 else 0
        answer_disagreed := if classifyOutcome link m = VoteOutcome.different then 1 else 0
        abstained := if classifyOutcome link m = VoteOutcome.abstained then 1 else 0
        absent := if classifyOutcome link m = VoteOutcome.absent then 1 else 0 } := by
  obtain ⟨dec, al, str⟩ := link
  cases hlk : List.lookup m.person_id dec.votes with
  | none =>
    simp only [mkAlignmentRow, fastVoteOf, classifyOutcome, linkStrongB, hlk]
    cases al <;> simp [get_effective_vote]
  | some v =>
    have hv : v ≠ VotePosition.absent := by
      intro he
      exact habs (m.person_id, v) (lookupSomeMem _ _ _ hlk) (by simpa using he)
    simp only [mkAlignmentRow, fastVoteOf, classifyOutcome, linkStrongB, hlk]
    cases v with
    | absent => exact absurd rfl hv
    | aye =>
      cases al <;> first
        | exact absurd rfl hne
        | simp [get_effective_vote]
    | no =>
      cases al <;> first
        | exact absurd rfl hne
        | simp [get_effective_vote]
    | abstention =>
      cases al <;> first
        | exact absurd rfl hne
        | simp [get_effective_vote]
    | tellaye =>
      cases al <;> first
        | exact absurd rfl hne
        | simp [get_effective_vote]
    | tellno =>
      cases al <;> first
        | exact absurd rfl hne
        | simp [get_effective_vote]

/-- The covering target memberships the fast join sees are the canonical
target list. -/
theorem fast_targets_eq_canon (ms : List MembershipRow) (person_id : Nat) (d : Nat) :
    ((target_memberships ms person_id AllowedChambers.commons).filter fun tm =>
        decide (tm.start_date ≤ d) && decide (d ≤ tm.end_date)) =
      canonTargets ms person_id d := by
  unfold target_memberships canonTargets commonsCoveringMembers
  rw [List.filter_filter, List.filter_filter]
  refine List.filter_congr fun m _ => ?_
  by_cases hp : m.person_id = person_id
  · by_cases hc : m.chamber = AllowedChambers.commons <;> simp [hp, hc, Bool.and_comm]
  · simp [hp]

/-- The per-group fractional outcome record at one strength tier: what
the pivot contributes for one division group. -/
def groupAggVotes (sB : Bool) (g : List AlignmentRow) : Score :=
  if sB then
    { num_strong_votes_same := (g.map AlignmentRow.answer_agreed).sum / (g.length : ℚ)
      num_strong_votes_different := (g.map AlignmentRow.answer_disagreed).sum / (g.length : ℚ)
      num_strong_votes_abstained := (g.map AlignmentRow.abstained).sum / (g.length : ℚ)
      num_strong_votes_absent := (g.map AlignmentRow.absent).sum / (g.length : ℚ) }
  else
    { num_votes_same := (g.map AlignmentRow.answer_agreed).sum / (g.length : ℚ)
      num_votes_different := (g.map AlignmentRow.answer_disagreed).sum / (g.length : ℚ)
      num_votes_abstained := (g.map AlignmentRow.abstained).sum / (g.length : ℚ)
      num_votes_absent := (g.map AlignmentRow.absent).sum / (g.length : ℚ) }

/-- Over rows of a single division at a single strength, the pivot for
one target flag is the fractional aggregate of that flag's group (or
zero when the group is empty). -/
theorem pivot_single_division (rows : List AlignmentRow) (divId : Nat) (sB : Bool)
    (hdiv : ∀ r ∈ rows, r.division_id = divId)
    (hstrong : ∀ r ∈ rows, r.strong_int = sB) (isT : Bool) :
    pivotScore rows isT =
      if (rows.filter fun r => decide (r.is_target = isT)) = [] then {}
      else groupAggVotes sB (rows.filter fun r => decide (r.is_target = isT)) := by
  have hgrp : ∀ b : Bool, (rows.filter fun r => decide (alignKey r = (b, divId))) =
      rows.filter fun r => decide (r.is_target = b) := by
    intro b
    refine List.filter_congr fun r hr => ?_
    rw [decide_eq_decide]
    simp [alignKey, Prod.ext_iff, hdiv r hr]
  have hkey : ∀ k ∈ rows.map alignKey, k.2 = divId := by
    intro k hk
    rw [List.mem_map] at hk
    obtain ⟨r, hr, hrk⟩ := hk
    rw [← hrk]
    exact hdiv r hr
  have hmemkey : ∀ b : Bool, ((b, divId) ∈ rows.map alignKey ↔
      ¬((rows.filter fun r => decide (r.is_target = b)) = [])) := by
    intro b
    rw [List.mem_map]
    constructor
    · rintro ⟨r, hr, hrk⟩ hnil
      have hrmem : r ∈ rows.filter fun r => decide (r.is_target = b) := by
        rw [List.mem_filter]
        refine ⟨hr, ?_⟩
        simp only [alignKey, Prod.mk.injEq] at hrk
        simp [hrk.1]
      rw [hnil] at hrmem
      exact absurd hrmem (List.not_mem_nil r)
    · intro hne
      obtain ⟨r, hrmem⟩ := List.exists_mem_of_ne_nil _ hne
      rw [List.mem_filter] at hrmem
      refine ⟨r, hrmem.1, ?_⟩
      simp only [alignKey]
      have hb : r.is_target = b := by simpa using hrmem.2
      rw [hb, hdiv r hrmem.1]
  have hcs : ∀ strongB : Bool,
      ((comparisons_by_policy_vote rows).filter fun c =>
          decide (c.is_target = isT) && decide (c.strong_int = strongB)) =
        if sB = strongB ∧ ¬((rows.filter fun r => decide (r.is_target = isT)) = []) then
          [{ is_target := isT
             strong_int := sB
             division_id := divId
             num_divisions_agreed :=
               ((rows.filter fun r => decide (r.is_target = isT)).map
                 AlignmentRow.answer_agreed).sum /
               (((rows.filter fun r => decide (r.is_target = isT)).length : ℚ))
             num_divisions_disagreed :=
               ((rows.filter fun r => decide (r.is_target = isT)).map
                 AlignmentRow.answer_disagreed).sum /
               (((rows.filter fun r => decide (r.is_target = isT)).length : ℚ))
             num_divisions_abstained :=
               ((rows.filter fun r => decide (r.is_target = isT)).map
                 AlignmentRow.abstained).sum /
               (((rows.filter fun r => decide (r.is_target = isT)).length : ℚ))
             num_divisions_absent :=
               ((rows.filter fun r => decide (r.is_target = isT)).map
                 AlignmentRow.absent).sum /
               (((rows.filter fun r => decide (r.is_target = isT)).length : ℚ)) }]
        else [] := by
    intro strongB
    unfold comparisons_by_policy_vote
    rw [List.filter_map]
    have hcond : ∀ k ∈ distinctKeysAux [] (rows.map alignKey),
        ((fun c => decide (c.is_target = isT) && decide (c.strong_int = strongB)) ∘
          (fun k =>
            let g := rows.filter fun r => decide (alignKey r = k)
            let total : ℚ := g.length
            ComparisonRow.mk k.1
              ((g.head?.map AlignmentRow.strong_int).getD false) k.2
              ((g.map AlignmentRow.answer_agreed).sum / total)
              ((g.map AlignmentRow.answer_disagreed).sum / total)
              ((g.map AlignmentRow.abstained).sum / total)
              ((g.map AlignmentRow.absent).sum / total))) k =
          (decide (k.1 = isT) && decide (sB = strongB)) := by
      intro k hk
      have hkmem : k ∈ rows.map alignKey := ((mem_distinctKeysAux k _ []).mp hk).1
      have hk2 : k.2 = divId := hkey k hkmem
      have hkpair : k = (k.1, divId) := by
        rw [← hk2]
      have hgne : ¬((rows.filter fun r => decide (alignKey r = k)) = []) := by
        rw [List.mem_map] at hkmem
        obtain ⟨r, hr, hrk⟩ := hkmem
        intro hnil
        have : r ∈ rows.filter fun r => decide (alignKey r = k) := by
          rw [List.mem_filter]
          exact ⟨hr, by simp [hrk]⟩
        rw [hnil] at this
        exact absurd this (List.not_mem_nil r)
      obtain ⟨r0, t0, hg0⟩ :=
        List.exists_cons_of_ne_nil hgne
      have hr0mem : r0 ∈ rows.filter fun r => decide (alignKey r = k) := by
        rw [hg0]
        exact List.mem_cons_self r0 t0
      rw [List.mem_filter] at hr0mem
      have hstr0 : r0.strong_int = sB := hstrong r0 hr0mem.1
      simp only [Function.comp]
      have hhead : (Option.map AlignmentRow.strong_int
          (List.filter (fun r => decide (alignKey r = k)) rows).head?).getD false = sB := by
        rw [hg0]
        simp [hstr0]
      simp only [hhead]
    rw [List.filter_congr hcond]
    by_cases hsb : sB = strongB
    · by_cases hne : (rows.filter fun r => decide (r.is_target = isT)) = []
      · rw [if_neg (by intro hand; exact hand.2 hne)]
        have hall : ∀ k ∈ (distinctKeysAux [] (rows.map alignKey)).filter
            (fun k => decide (k.1 = isT) && decide (sB = strongB)), k = (isT, divId) := by
          intro k hk
          rw [List.mem_filter] at hk
          have hkmem : k ∈ rows.map alignKey :=
            ((mem_distinctKeysAux k _ []).mp hk.1).1
          have h1 : k.1 = isT := by
            have := hk.2
            simp only [Bool.and_eq_true, decide_eq_true_eq] at this
            exact this.1
          rw [← h1, ← hkey k hkmem]
        have hnmem : (isT, divId) ∉ (distinctKeysAux [] (rows.map alignKey)).filter
            (fun k => decide (k.1 = isT) && decide (sB = strongB)) := by
          intro hmem
          rw [List.mem_filter] at hmem
          have : (isT, divId) ∈ rows.map alignKey :=
            ((mem_distinctKeysAux _ _ []).mp hmem.1).1
          exact ((hmemkey isT).mp this) hne
        rw [nodupAllEqSingleton _ (isT, divId)
          (List.Nodup.filter _ (nodup_distinctKeysAux _ [])) hall]
        rw [if_neg hnmem]
        rfl
      · rw [if_pos ⟨hsb, hne⟩]
        have hall : ∀ k ∈ (distinctKeysAux [] (rows.map alignKey)).filter
            (fun k => decide (k.1 = isT) && decide (sB = strongB)), k = (isT, divId) := by
          intro k hk
          rw [List.mem_filter] at hk
          have hkmem : k ∈ rows.map alignKey :=
            ((mem_distinctKeysAux k _ []).mp hk.1).1
          have h1 : k.1 = isT := by
            have := hk.2
            simp only [Bool.and_eq_true, decide_eq_true_eq] at this
            exact this.1
          rw [← h1, ← hkey k hkmem]
        have hmem : (isT, divId) ∈ (distinctKeysAux [] (rows.map alignKey)).filter
            (fun k => decide (k.1 = isT) && decide (sB = strongB)) := by
          rw [List.mem_filter]
          refine ⟨(mem_distinctKeysAux _ _ []).mpr ⟨(hmemkey isT).mpr hne, by simp⟩, ?_⟩
          simp [hsb]
        rw [nodupAllEqSingleton _ (isT, divId)
          (List.Nodup.filter _ (nodup_distinctKeysAux _ [])) hall]
        rw [if_pos hmem, List.map_cons, List.map_nil]
        have hhead2 : (Option.map AlignmentRow.strong_int
            (List.filter (fun r => decide (r.is_target = isT)) rows).head?).getD false = sB := by
          obtain ⟨r0, t0, hg0⟩ := List.exists_cons_of_ne_nil hne
          have hr0mem : r0 ∈ List.filter (fun r => decide (r.is_target = isT)) rows := by
            rw [hg0]
            exact List.mem_cons_self r0 t0
          rw [List.mem_filter] at hr0mem
          rw [hg0]
          simp [hstrong r0 hr0mem.1]
        simp only [hgrp isT, hhead2]
    · rw [if_neg (by intro hand; exact hsb hand.1)]
      have hfil : ((distinctKeysAux [] (rows.map alignKey)).filter
          (fun k => decide (k.1 = isT) && decide (sB = strongB))) = [] := by
        rw [List.filter_eq_nil_iff]
        intro k _
        simp [hsb]
      rw [hfil]
      rfl
  unfold pivotScore
  simp only [hcs]
  by_cases hne : (rows.filter fun r => decide (r.is_target = isT)) = []
  · rw [if_pos hne]
    cases sB <;>
      simp [hne, groupAggVotes]
  · rw [if_neg hne]
    cases sB <;>
      simp [hne, groupAggVotes]

/-- On a person-duplicate-free list, filtering by person keeps at most
one row. -/
theorem filter_person_le_one (l : List MembershipRow) (pid : Nat)
    (h : (l.map MembershipRow.person_id).Nodup) :
    ((l.filter fun m => decide (m.person_id = pid)).length) ≤ 1 := by
  induction l with
  | nil => simp
  | cons m rest ih =>
    simp only [List.map_cons, List.nodup_cons] at h
    by_cases hp : m.person_id = pid
    · rw [List.filter_cons_of_pos (by simp [hp])]
      have hrest : (rest.filter fun m => decide (m.person_id = pid)) = [] := by
        rw [List.filter_eq_nil_iff]
        intro r hr
        simp only [decide_eq_true_eq]
        intro he
        apply h.1
        rw [hp, ← he]
        exact List.mem_map_of_mem _ hr
      rw [hrest]
      simp
    · rw [List.filter_cons_of_neg (by simp [hp])]
      exact ih h.2

/-- Under the one-covering-membership-per-person invariant, a nonempty
canonical target list is a singleton. -/
theorem canonTargets_singleton (ms : List MembershipRow) (pid d : Nat)
    (huniq : ((commonsCoveringMembers ms d).map MembershipRow.person_id).Nodup)
    (hne : canonTargets ms pid d ≠ []) :
    ∃ t, canonTargets ms pid d = [t] := by
  have hle : (canonTargets ms pid d).length ≤ 1 :=
    filter_person_le_one _ pid huniq
  have hpos : 0 < (canonTargets ms pid d).length := List.length_pos.mpr hne
  have h1 : (canonTargets ms pid d).length = 1 := le_antisymm hle hpos
  exact List.length_eq_one.mp h1

/-- The fast path's target rows select exactly the canonical covering
target memberships (once the division is known to be a commons one). -/
theorem fastMembers_target_list_eq (ms : List MembershipRow) (pid : Nat)
    (party : String) (d : Division) (h2 : d.chamber = AllowedChambers.commons) :
    (((ms.filter fun m =>
          decide (m.chamber = d.chamber) && decide (m.start_date ≤ d.date) &&
            decide (d.date ≤ m.end_date)).filter fun m =>
        decide (m.person_id = pid) || decide (m.party_reduced = party)).filter
      fun m => decide (decide (m.person_id = pid) = true)) = canonTargets ms pid d.date := by
  unfold canonTargets commonsCoveringMembers
  rw [List.filter_filter, List.filter_filter, List.filter_filter]
  refine List.filter_congr fun m _ => ?_
  by_cases hp : m.person_id = pid
  · by_cases hc : m.chamber = AllowedChambers.commons <;>
      simp [hp, hc, h2, Bool.and_comm, Bool.and_left_comm, Bool.and_assoc]
  · simp [hp]

/-- The fast path's comparison rows select exactly the canonical
covering non-target party memberships. -/
theorem fastMembers_other_list_eq (ms : List MembershipRow) (pid : Nat)
    (party : String) (d : Division) (h2 : d.chamber = AllowedChambers.commons) :
    (((ms.filter fun m =>
          decide (m.chamber = d.chamber) && decide (m.start_date ≤ d.date) &&
            decide (d.date ≤ m.end_date)).filter fun m =>
        decide (m.person_id = pid) || decide (m.party_reduced = party)).filter
      fun m => decide (decide (m.person_id = pid) = false)) =
      canonOthers ms pid party d.date := by
  unfold canonOthers commonsCoveringMembers
  rw [List.filter_filter, List.filter_filter, List.filter_filter]
  refine List.filter_congr fun m _ => ?_
  by_cases hp : m.person_id = pid
  · simp [hp]
  · by_cases hq : m.party_reduced = party
    · by_cases hc : m.chamber = AllowedChambers.commons <;>
        simp [hp, hq, hc, h2, Bool.and_comm, Bool.and_left_comm, Bool.and_assoc]
    · simp [hp, hq]

/-- Explicit field description of the canonical member sum for a
link. -/
theorem sumScores_linkOutcome_fields (link : DivisionLink) (l : List MembershipRow) :
    sumScores (linkOutcome link) l =
      if linkStrongB link then
        { num_strong_votes_same :=
            (l.map fun m => if classifyOutcome link m = VoteOutcome.same then (1 : ℚ) else 0).sum
          num_strong_votes_different :=
            (l.map fun m => if classifyOutcome link m = VoteOutcome.different then (1 : ℚ) else 0).sum
          num_strong_votes_abstained :=
            (l.map fun m => if classifyOutcome link m = VoteOutcome.abstained then (1 : ℚ) else 0).sum
          num_strong_votes_absent :=
            (l.map fun m => if classifyOutcome link m = VoteOutcome.absent then (1 : ℚ) else 0).sum }
      else
        { num_votes_same :=
            (l.map fun m => if classifyOutcome link m = VoteOutcome.same then (1 : ℚ) else 0).sum
          num_votes_different :=
            (l.map fun m => if classifyOutcome link m = VoteOutcome.different then (1 : ℚ) else 0).sum
          num_votes_abstained :=
            (l.map fun m => if classifyOutcome link m = VoteOutcome.abstained then (1 : ℚ) else 0).sum
          num_votes_absent :=
            (l.map fun m => if classifyOutcome link m = VoteOutcome.absent then (1 : ℚ) else 0).sum } := by
  induction l with
  | nil => cases hsb : linkStrongB link <;> simp [sumScores_nil]
  | cons m rest ih =>
    rw [sumScores_cons, ih]
    cases hsb : linkStrongB link <;>
      cases ho : classifyOutcome link m <;>
        simp [linkOutcome, outcomeScore, hsb, ho, Score.addVotes]

/-- Reducing a record whose vote total is one changes nothing. -/
theorem Score.reduce_total_one (s : Score) (h : s.total_votes = 1) :
    s.reduce = s := by
  simp [Score.reduce, h]

/-- Aggregating the fast rows of a member list fractionally equals
reducing the canonical member sum. -/
theorem groupAgg_map_eq_reduce (person_id : Nat) (link : DivisionLink)
    (l : List MembershipRow)
    (hne : ¬(link.alignment = PolicyDirection.NEUTRAL))
    (habs : ∀ pv ∈ link.decision.votes, pv.2 ≠ VotePosition.absent) :
    groupAggVotes (linkStrongB link)
        (l.map fun m => mkAlignmentRow person_id link m (fastVoteOf link.decision m)) =
      (sumScores (linkOutcome link) l).reduce := by
  have hmap : (l.map fun m => mkAlignmentRow person_id link m (fastVoteOf link.decision m)) =
      l.map fun m =>
        ({ is_target := decide (m.person_id = person_id)
           strong_int := linkStrongB link
           division_id := link.decision.division_id
           answer_agreed := if classifyOutcome link m = VoteOutcome.same then 1 else 0
           answer_disagreed := if classifyOutcome link m = VoteOutcome.different then 1 else 0
           abstained := if classifyOutcome link m = VoteOutcome.abstained then 1 else 0
           absent := if classifyOutcome link m = VoteOutcome.absent then 1 else 0 } :
          AlignmentRow) :=
    List.map_congr_left fun m _ => mkAlignmentRow_classify person_id link m hne habs
  have htot := sumScores_outcome_total (linkOutcome link)
    (fun m => linkOutcome_total link m) l
  have hfields := sumScores_linkOutcome_fields link l
  rw [hmap, hfields]
  rw [hfields] at htot
  cases hsb : linkStrongB link
  · rw [hsb] at htot
    simp only [Bool.false_eq_true, if_neg] at htot
    simp only [Score.reduce, Bool.false_eq_true, if_neg]
    rw [htot]
    simp [groupAggVotes, List.map_map, Function.comp_def]
  · rw [hsb] at htot
    simp only [if_pos] at htot
    simp only [Score.reduce, if_pos]
    rw [htot]
    simp [groupAggVotes, List.map_map, Function.comp_def]

/-- The pivot of no rows is the zero record. -/
theorem pivotScore_nil (isT : Bool) : pivotScore [] isT = {} := rfl

/-- The pivot record never carries agreement counts. -/
theorem pivotScore_zeroAgreements (rows : List AlignmentRow) (isT : Bool) :
    (pivotScore rows isT).zeroAgreements :=
  ⟨rfl, rfl, rfl, rfl⟩

/-- Grouping key-disjoint row blocks groups each block separately. -/
theorem comparisons_append (ra rb : List AlignmentRow)
    (hdis : ∀ r ∈ ra, ∀ s ∈ rb, alignKey r ≠ alignKey s) :
    comparisons_by_policy_vote (ra ++ rb) =
      comparisons_by_policy_vote ra ++ comparisons_by_policy_vote rb := by
  have hkdis : ∀ x ∈ rb.map alignKey, x ∉ ra.map alignKey := by
    intro x hx hxa
    obtain ⟨s, hs, hsx⟩ := List.mem_map.mp hx
    obtain ⟨r, hr, hrx⟩ := List.mem_map.mp hxa
    exact hdis r hr s hs (hrx.trans hsx.symm)
  unfold comparisons_by_policy_vote
  rw [List.map_append, distinctKeysAux_append _ _ [] hkdis, List.map_append]
  congr 1
  · refine List.map_congr_left fun k hk => ?_
    have hkra : k ∈ ra.map alignKey := ((mem_distinctKeysAux k _ _).mp hk).1
    have hrb : (rb.filter fun r => decide (alignKey r = k)) = [] := by
      rw [List.filter_eq_nil_iff]
      intro t ht
      simp only [decide_eq_true_eq]
      intro he
      obtain ⟨r, hr, hrx⟩ := List.mem_map.mp hkra
      exact hdis r hr t ht (hrx.trans he.symm)
    have hfa : ((ra ++ rb).filter fun r => decide (alignKey r = k)) =
        ra.filter fun r => decide (alignKey r = k) := by
      rw [List.filter_append, hrb, List.append_nil]
    simp only [hfa]
  · refine List.map_congr_left fun k hk => ?_
    have hkrb : k ∈ rb.map alignKey := ((mem_distinctKeysAux k _ _).mp hk).1
    have hra : (ra.filter fun r => decide (alignKey r = k)) = [] := by
      rw [List.filter_eq_nil_iff]
      intro r hr
      simp only [decide_eq_true_eq]
      intro he
      obtain ⟨t, ht, htx⟩ := List.mem_map.mp hkrb
      exact hdis r hr t ht (he.trans htx.symm)
    have hfa : ((ra ++ rb).filter fun r => decide (alignKey r = k)) =
        rb.filter fun r => decide (alignKey r = k) := by
      rw [List.filter_append, hra, List.nil_append]
    simp only [hfa]

/-- The pivot is additive over key-disjoint row blocks. -/
theorem pivotScore_append (ra rb : List AlignmentRow)
    (hdis : ∀ r ∈ ra, ∀ s ∈ rb, alignKey r ≠ alignKey s) (isT : Bool) :
    pivotScore (ra ++ rb) isT =
      Score.addVotes (pivotScore ra isT) (pivotScore rb isT) := by
  unfold pivotScore
  rw [comparisons_append ra rb hdis]
  simp [List.filter_append, List.sum_append, Score.addVotes]

/-- Every row built for a link carries that link's division id and
strength flag. -/
theorem fastLinkRows_divId (ms : List MembershipRow) (person_id : Nat)
    (chamber_slug : AllowedChambers) (party_id : String) (link : DivisionLink) :
    ∀ r ∈ fastLinkRows ms person_id chamber_slug party_id link,
      r.division_id = link.decision.division_id ∧ r.strong_int = linkStrongB link := by
  intro r hr
  unfold fastLinkRows at hr
  rw [List.mem_flatMap] at hr
  obtain ⟨tm, _, hr⟩ := hr
  rw [List.mem_filterMap] at hr
  obtain ⟨mv, _, heq⟩ := hr
  by_cases hp : (decide (mv.1.person_id = person_id) ||
      decide (mv.1.party_reduced = party_id)) = true
  · rw [if_pos hp] at heq
    simp only [Option.some.injEq] at heq
    rw [← heq]
    exact ⟨rfl, rfl⟩
  · rw [if_neg hp] at heq
    exact absurd heq (by simp)

/-- Over division-distinct links, the pivot of all fast rows is the sum
of the per-link pivots. -/
theorem pivot_flatMap_links (ms : List MembershipRow) (person_id : Nat)
    (party_id : String) :
    ∀ (links : List DivisionLink),
      ((links.map fun L => L.decision.division_id).Nodup) → ∀ isT : Bool,
      pivotScore (links.flatMap
          (fastLinkRows ms person_id AllowedChambers.commons party_id)) isT =
        sumScores
          (fun L => pivotScore
            (fastLinkRows ms person_id AllowedChambers.commons party_id L) isT)
          links := by
  intro links
  induction links with
  | nil =>
    intro _ isT
    rw [sumScores_nil]
    exact pivotScore_nil isT
  | cons L rest ih =>
    intro hnd isT
    rw [List.map_cons, List.nodup_cons] at hnd
    have hdis : ∀ r ∈ fastLinkRows ms person_id AllowedChambers.commons party_id L,
        ∀ t ∈ rest.flatMap (fastLinkRows ms person_id AllowedChambers.commons party_id),
          alignKey r ≠ alignKey t := by
      intro r hr t ht he
      obtain ⟨hrd, _⟩ := fastLinkRows_divId ms person_id _ party_id L r hr
      rw [List.mem_flatMap] at ht
      obtain ⟨L2, hL2, ht⟩ := ht
      obtain ⟨htd, _⟩ := fastLinkRows_divId ms person_id _ party_id L2 t ht
      apply hnd.1
      have hsnd := congrArg Prod.snd he
      simp only [alignKey] at hsnd
      rw [hrd, htd] at hsnd
      rw [hsnd]
      exact List.mem_map_of_mem _ hL2
    rw [List.flatMap_cons, pivotScore_append _ _ hdis isT, ih hnd.2 isT, sumScores_cons]

/-- Division id of a row mapped from a member list. -/
theorem mapRow_divId (person_id : Nat) (link : DivisionLink) (l : List MembershipRow) :
    ∀ r ∈ l.map fun m => mkAlignmentRow person_id link m (fastVoteOf link.decision m),
      r.division_id = link.decision.division_id := by
  intro r hr
  obtain ⟨m, _, hm⟩ := List.mem_map.mp hr
  rw [← hm]
  rfl

/-- Strength flag of a row mapped from a member list. -/
theorem mapRow_strong (person_id : Nat) (link : DivisionLink) (l : List MembershipRow) :
    ∀ r ∈ l.map fun m => mkAlignmentRow person_id link m (fastVoteOf link.decision m),
      r.strong_int = linkStrongB link := by
  intro r hr
  obtain ⟨m, _, hm⟩ := List.mem_map.mp hr
  rw [← hm]
  rfl

/-- The is-target flag of a fast row is the person match. -/
theorem mapRow_isTarget (person_id : Nat) (link : DivisionLink) (m : MembershipRow)
    (b : Bool) :
    (decide ((mkAlignmentRow person_id link m (fastVoteOf link.decision m)).is_target = b)) =
      decide (decide (m.person_id = person_id) = b) := rfl

/-- The pivot of one eligible link's rows, in canonical form: the raw
member sum for the target (a singleton group), the reduced fraction
record for the comparison group. -/
theorem fastLinkRows_pivot (ms : List MembershipRow) (person_id : Nat)
    (party : String) (link : DivisionLink)
    (hne : ¬(link.alignment = PolicyDirection.NEUTRAL))
    (h2 : link.decision.chamber = AllowedChambers.commons)
    (habs : ∀ pv ∈ link.decision.votes, pv.2 ≠ VotePosition.absent)
    (huniq : ((commonsCoveringMembers ms link.decision.date).map
        MembershipRow.person_id).Nodup) (isT : Bool) :
    pivotScore (fastLinkRows ms person_id AllowedChambers.commons party link) isT =
      if canonTargets ms person_id link.decision.date = [] then {}
      else if isT then
        sumScores (linkOutcome link) (canonTargets ms person_id link.decision.date)
      else if canonOthers ms person_id party link.decision.date = [] then {}
      else (sumScores (linkOutcome link)
        (canonOthers ms person_id party link.decision.date)).reduce := by
  unfold fastLinkRows
  rw [fast_targets_eq_canon]
  by_cases hT : canonTargets ms person_id link.decision.date = []
  · rw [hT, if_pos rfl]
    exact pivotScore_nil isT
  · obtain ⟨t, ht⟩ := canonTargets_singleton ms person_id link.decision.date huniq hT
    rw [ht, if_neg (by simp)]
    rw [show ([t].flatMap fun _ =>
        (pw_vote_with_absences ms link.decision).filterMap fun mv =>
          if decide (mv.1.person_id = person_id) ||
              decide (mv.1.party_reduced = party) then
            some (mkAlignmentRow person_id link mv.1 mv.2)
          else none) =
        ((pw_vote_with_absences ms link.decision).filterMap fun mv =>
          if decide (mv.1.person_id = person_id) ||
              decide (mv.1.party_reduced = party) then
            some (mkAlignmentRow person_id link mv.1 mv.2)
          else none) from by simp]
    rw [pw_vote_with_absences_eq, fastInner_aux]
    rw [pivot_single_division _ link.decision.division_id (linkStrongB link)
      (mapRow_divId person_id link _) (mapRow_strong person_id link _) isT]
    rw [List.filter_map]
    simp only [Function.comp_def, mapRow_isTarget]
    cases isT
    · rw [List.filter_filter]
      have hmembers :
          (((ms.filter fun m =>
                decide (m.chamber = link.decision.chamber) &&
                  decide (m.start_date ≤ link.decision.date) &&
                  decide (link.decision.date ≤ m.end_date)).filter fun m =>
              decide (decide (m.person_id = person_id) = false) &&
                (decide (m.person_id = person_id) ||
                  decide (m.party_reduced = party))) =
            canonOthers ms person_id party link.decision.date) := by
      

        rw [← fastMembers_other_list_eq ms person_id party link.decision h2]
        simp only [List.filter_filter]
        refine List.filter_congr fun m _ => ?_
        cases hp : decide (m.person_id = person_id) <;>
          cases hq : decide (m.party_reduced = party) <;>
            simp [hp, hq, Bool.and_comm, Bool.and_left_comm, Bool.and_assoc]
      rw [hmembers]
      by_cases hO : canonOthers ms person_id party link.decision.date = []
      · rw [hO]
        simp
      · rw [if_neg (by simpa using hO), if_neg hO,
          if_neg (by simp), groupAgg_map_eq_reduce person_id link _ hne habs]
    · rw [List.filter_filter]
      have hmembers :
          (((ms.filter fun m =>
                decide (m.chamber = link.decision.chamber) &&
                  decide (m.start_date ≤ link.decision.date) &&
                  decide (link.decision.date ≤ m.end_date)).filter fun m =>
              decide (decide (m.person_id = person_id) = true) &&
                (decide (m.person_id = person_id) ||
                  decide (m.party_reduced = party))) =
            canonTargets ms person_id link.decision.date) := by
        rw [← fastMembers_target_list_eq ms person_id party link.decision h2]
        simp only [List.filter_filter]
        refine List.filter_congr fun m _ => ?_
        cases hp : decide (m.person_id = person_id) <;>
          cases hq : decide (m.party_reduced = party) <;>
            simp [hp, hq, Bool.and_comm, Bool.and_left_comm, Bool.and_assoc]
      rw [hmembers, ht]
      rw [if_neg (by simp), if_pos rfl]
      rw [groupAgg_map_eq_reduce person_id link _ hne habs]
      exact Score.reduce_total_one _
        (sumScores_outcome_total _ (fun m => linkOutcome_total link m) [t])

/-- The fast pivot over all alignment rows is the canonical per-link sum
over every division link of the policy. -/
theorem fast_pivot_eq_canon_sum (ms : List MembershipRow) (person_id : Nat)
    (party : String) (policy : Policy) (start_date end_date : Nat)
    (hpc : policy.chamber = AllowedChambers.commons)
    (habs : ∀ link ∈ policy.division_links, ∀ pv ∈ link.decision.votes,
      pv.2 ≠ VotePosition.absent)
    (hdivnd : (policy.division_links.map fun L => L.decision.division_id).Nodup)
    (huniq : ∀ d, ((commonsCoveringMembers ms d).map MembershipRow.person_id).Nodup) :
    (pivotScore (policy_alignment ms person_id AllowedChambers.commons party policy
        start_date end_date) true =
      sumScores (canonTargetDelta ms person_id start_date end_date)
        policy.division_links) ∧
    (pivotScore (policy_alignment ms person_id AllowedChambers.commons party policy
        start_date end_date) false =
      sumScores (canonOtherDelta ms person_id party start_date end_date)
        policy.division_links) := by
  have key : ∀ isT : Bool,
      pivotScore (policy_alignment ms person_id AllowedChambers.commons party policy
        start_date end_date) isT =
      sumScores (fun L =>
        if (!(decide (L.alignment = PolicyDirection.NEUTRAL)) &&
            decide (L.decision.chamber = AllowedChambers.commons) &&
            decide (policy.chamber = AllowedChambers.commons) &&
            decide (start_date ≤ L.decision.date) &&
            decide (L.decision.date ≤ end_date)) then
          pivotScore (fastLinkRows ms person_id AllowedChambers.commons party L) isT
        else {}) policy.division_links := by
    intro isT
    rw [policy_alignment_eq]
    have hndf : (((policy.division_links.filter fun link =>
        !(decide (link.alignment = PolicyDirection.NEUTRAL)) &&
          decide (link.decision.chamber = AllowedChambers.commons) &&
          decide (policy.chamber = AllowedChambers.commons) &&
          decide (start_date ≤ link.decision.date) &&
          decide (link.decision.date ≤ end_date)).map
        fun L => L.decision.division_id).Nodup) :=
      hdivnd.sublist (List.Sublist.map _ (List.filter_sublist _))
    rw [pivot_flatMap_links ms person_id party _ hndf isT]
    rw [sumScores_filter _ _ _ fun L _ => pivotScore_zeroAgreements _ isT]
  constructor
  · rw [key true]
    refine sumScores_congr _ _ _ fun L hL => ?_
    by_cases hel : (!(decide (L.alignment = PolicyDirection.NEUTRAL)) &&
        decide (L.decision.chamber = AllowedChambers.commons) &&
        decide (policy.chamber = AllowedChambers.commons) &&
        decide (start_date ≤ L.decision.date) &&
        decide (L.decision.date ≤ end_date)) = true
    · rw [if_pos hel]
      simp only [Bool.and_eq_true, Bool.not_eq_true', decide_eq_true_eq,
        decide_eq_false_iff_not] at hel
      obtain ⟨⟨⟨⟨hn, hc⟩, _⟩, h4⟩, h5⟩ := hel
      rw [fastLinkRows_pivot ms person_id party L hn hc (habs L hL) (huniq _) true]
      unfold canonTargetDelta
      by_cases hT : canonTargets ms person_id L.decision.date = []
      · rw [if_pos hT, if_neg (fun hcc => hcc.2.2.2 hT)]
      · have hcc : canonCond ms person_id start_date end_date L := ⟨hn, hc, ⟨h4, h5⟩, hT⟩
        rw [if_neg hT, if_pos rfl, if_pos hcc]
    · rw [if_neg hel]
      by_cases hcc : canonCond ms person_id start_date end_date L
      · exfalso
        apply hel
        obtain ⟨hn, hc, ⟨h4, h5⟩, _⟩ := hcc
        simp [hn, hc, hpc, h4, h5]
      · unfold canonTargetDelta
        rw [if_neg hcc]
  · rw [key false]
    refine sumScores_congr _ _ _ fun L hL => ?_
    by_cases hel : (!(decide (L.alignment = PolicyDirection.NEUTRAL)) &&
        decide (L.decision.chamber = AllowedChambers.commons) &&
        decide (policy.chamber = AllowedChambers.commons) &&
        decide (start_date ≤ L.decision.date) &&
        decide (L.decision.date ≤ end_date)) = true
    · rw [if_pos hel]
      simp only [Bool.and_eq_true, Bool.not_eq_true', decide_eq_true_eq,
        decide_eq_false_iff_not] at hel
      obtain ⟨⟨⟨⟨hn, hc⟩, _⟩, h4⟩, h5⟩ := hel
      rw [fastLinkRows_pivot ms person_id party L hn hc (habs L hL) (huniq _) false]
      unfold canonOtherDelta
      by_cases hT : canonTargets ms person_id L.decision.date = []
      · rw [if_pos hT, if_neg (fun hcc => hcc.2.2.2 hT)]
      · have hcc : canonCond ms person_id start_date end_date L := ⟨hn, hc, ⟨h4, h5⟩, hT⟩
        rw [if_neg hT, if_neg (show ¬(false = true) by simp), if_pos hcc]
        by_cases hO : canonOthers ms person_id party L.decision.date = []
        · rw [if_pos hO, if_neg (show ¬(0 < (canonOthers ms person_id party
            L.decision.date).length) by simp [hO])]
        · rw [if_neg hO, if_pos (List.length_pos.mpr hO)]
    · rw [if_neg hel]
      by_cases hcc : canonCond ms person_id start_date end_date L
      · exfalso
        apply hel
        obtain ⟨hn, hc, ⟨h4, h5⟩, _⟩ := hcc
        simp [hn, hc, hpc, h4, h5]
      · unfold canonOtherDelta
        rw [if_neg hcc]

/-- A row flagged non-target yields a non-target comparison group. -/
theorem comparisons_any_false (rows : List AlignmentRow)
    (h : ∃ r ∈ rows, r.is_target = false) :
    (comparisons_by_policy_vote rows).any (fun c => decide (c.is_target = false)) = true := by
  obtain ⟨r, hr, hrt⟩ := h
  have hkmem : alignKey r ∈ distinctKeysAux [] (rows.map alignKey) :=
    (mem_distinctKeysAux _ _ _).mpr ⟨List.mem_map_of_mem _ hr, List.not_mem_nil _⟩
  unfold comparisons_by_policy_vote
  rw [List.any_eq_true]
  refine ⟨_, List.mem_map_of_mem _ hkmem, ?_⟩
  simp [alignKey, hrt]

/-- An eligible link with a nonempty comparison group contributes a
non-target alignment row. -/
theorem policy_alignment_has_other_row (ms : List MembershipRow) (person_id : Nat)
    (party : String) (policy : Policy) (start_date end_date : Nat)
    (hpc : policy.chamber = AllowedChambers.commons)
    (L : DivisionLink) (hL : L ∈ policy.division_links)
    (hcc : canonCond ms person_id start_date end_date L)
    (m : MembershipRow) (hm : m ∈ canonOthers ms person_id party L.decision.date) :
    ∃ r ∈ policy_alignment ms person_id AllowedChambers.commons party policy
        start_date end_date, r.is_target = false := by
  obtain ⟨hn, hc, ⟨h4, h5⟩, hT⟩ := hcc
  unfold canonOthers commonsCoveringMembers at hm
  rw [List.mem_filter] at hm
  obtain ⟨hm1, hm2⟩ := hm
  rw [List.mem_filter] at hm1
  obtain ⟨hms, hm3⟩ := hm1
  simp only [Bool.and_eq_true, Bool.not_eq_true', decide_eq_true_eq,
    decide_eq_false_iff_not] at hm2 hm3
  refine ⟨mkAlignmentRow person_id L m (fastVoteOf L.decision m), ?_, ?_⟩
  · rw [policy_alignment_eq, List.mem_flatMap]
    refine ⟨L, ?_, ?_⟩
    · rw [List.mem_filter]
      exact ⟨hL, by simp [hn, hc, hpc, h4, h5]⟩
    · unfold fastLinkRows
      rw [List.mem_flatMap]
      obtain ⟨t, ht⟩ := List.exists_mem_of_ne_nil _ hT
      refine ⟨t, ?_, ?_⟩
      · rw [fast_targets_eq_canon]
        exact ht
      · rw [pw_vote_with_absences_eq, fastInner_aux, List.mem_map]
        refine ⟨m, ?_, rfl⟩
        rw [List.mem_filter]
        refine ⟨?_, by simp [hm2.1]⟩
        rw [List.mem_filter]
        refine ⟨hms, ?_⟩
        simp [hm3.1, hc, hm3.2.1, hm3.2.2]
  · simp [mkAlignmentRow, hm2.2]

/-- Two records with identical vote fields compare equal under the
validator's tolerance check. -/
theorem Score.eq_of_voteFields_eq (a b : Score) (h : a.voteFields = b.voteFields) :
    Score.eq a b = true := by
  simp only [Score.voteFields, List.cons.injEq, and_true] at h
  obtain ⟨h1, h2, h3, h4, h5, h6, h7, h8⟩ := h
  simp [Score.eq, Score.tol_errors, Score.voteFieldList, h1, h2, h3, h4, h5, h6,
    h7, h8, tol_self]

/-- Person-distinct membership data satisfies the per-date covering
uniqueness invariant. -/
theorem commonsCoveringMembers_nodup_of_nodup (ms : List MembershipRow)
    (h : (ms.map MembershipRow.person_id).Nodup) (d : Nat) :
    ((commonsCoveringMembers ms d).map MembershipRow.person_id).Nodup :=
  h.sublist (List.Sublist.map _ (List.filter_sublist _))

/-! ### Claim C1 -/

/-- C1 (amended): over data satisfying the validator's implicit
invariants — the policy and the comparison are for the commons (the
slow path hard-codes the commons in its membership queries), each
division's recorded vote list has distinct person keys and no literal
`absent` entry, division ids are distinct across the policy's links,
every person has at most one covering commons membership on any date,
and at least one eligible link carries a nonempty comparison group —
the fast SQL aggregator path (`get_pivot_df` over the
`policy_alignment`/`comparisons_by_policy_vote` macros) and the slow
validator path (`get_scores_slow`) agree within the 0.05 absolute
tolerance on every *compared* count field of both the target and the
comparison distribution, which is what `validate_approach` checks.  The
original claim is not true of every count field of `VoteDistribution`:
the agreement-count fields diverge (see the counterexample), and
without the nonempty-comparison proviso the fast path substitutes the
target's own distribution for the missing comparison group. -/
theorem validate_approach_tolerance_equivalence (ms : List MembershipRow)
    (person_id : Nat) (party : String) (policy : Policy) (start_date end_date : Nat)
    (hpc : policy.chamber = AllowedChambers.commons)
    (hvnd : ∀ link ∈ policy.division_links, (link.decision.votes.map Prod.fst).Nodup)
    (habs : ∀ link ∈ policy.division_links, ∀ pv ∈ link.decision.votes,
      pv.2 ≠ VotePosition.absent)
    (hdivnd : (policy.division_links.map fun L => L.decision.division_id).Nodup)
    (huniq : ∀ d, ((commonsCoveringMembers ms d).map MembershipRow.person_id).Nodup)
    (hcomp : ∃ L ∈ policy.division_links,
      canonCond ms person_id start_date end_date L ∧
        canonOthers ms person_id party L.decision.date ≠ []) :
    validate_results_match ms person_id AllowedChambers.commons party policy
      start_date end_date = true := by
  unfold validate_results_match
  rw [get_scores_slow_canon ms person_id party policy start_date end_date hpc hvnd]
  obtain ⟨hfT, hfF⟩ := fast_pivot_eq_canon_sum ms person_id party policy start_date
    end_date hpc habs hdivnd huniq
  obtain ⟨L, hL, hcc, hO⟩ := hcomp
  obtain ⟨m, hm⟩ := List.exists_mem_of_ne_nil _ hO
  have hany := comparisons_any_false _
    (policy_alignment_has_other_row ms person_id party policy start_date end_date hpc
      L hL hcc m hm)
  have hfc : fast_comparison ms person_id AllowedChambers.commons party policy
      start_date end_date =
      { target_distribution :=
          sumScores (canonTargetDelta ms person_id start_date end_date)
            policy.division_links
        other_distribution :=
          sumScores (canonOtherDelta ms person_id party start_date end_date)
            policy.division_links } := by
    unfold fast_comparison
    simp only [hany]
    rw [if_pos trivial, hfT, hfF]
  rw [hfc]
  unfold PolicyComparison.eq
  rw [Bool.and_eq_true]
  constructor
  · apply Score.eq_of_voteFields_eq
    have hag := slowAgreementFold_voteFields ms person_id policy.chamber start_date
      end_date policy.agreement_links {}
    simp only [Score.voteFields, List.cons.injEq, and_true] at hag
    obtain ⟨g1, g2, g3, g4, g5, g6, g7, g8⟩ := hag
    simp [Score.voteFields, Score.addVotes, g1, g2, g3, g4, g5, g6, g7, g8]
  · exact Score.eq_of_voteFields_eq _ _ rfl

/-- C1 witness: a two-member commons dataset with one strong agree-link
division on which the validator and aggregator agree. -/
theorem validate_approach_tolerance_equivalence_witness :
    validate_results_match
      [{ person_id := 1, party_reduced := "labour", chamber := AllowedChambers.commons,
         start_date := 0, end_date := 100 },
       { person_id := 2, party_reduced := "labour", chamber := AllowedChambers.commons,
         start_date := 0, end_date := 100 }] 1 AllowedChambers.commons "labour"
      { chamber := AllowedChambers.commons
        division_links :=
          [{ decision :=
               { division_id := 10, date := 50, chamber := AllowedChambers.commons,
                 votes := [(1, VotePosition.aye), (2, VotePosition.no)] }
             alignment := PolicyDirection.AGREE
             strength := PolicyStrength.STRONG }]
        agreement_links := [] } 0 100 = true :=
  validate_approach_tolerance_equivalence _ _ _ _ _ _ rfl (by decide) (by decide)
    (by decide) (commonsCoveringMembers_nodup_of_nodup _ (by decide)) (by decide)

/-- C1 counterexample to the unamended claim: on a policy with one
strong agreement and no divisions, the slow validator tallies one
strong agreement while the fast pivot produces none, a whole count
outside the 0.05 tolerance — the two paths do not agree on every
`VoteDistribution` count field, only on the eight vote fields that
`validate_approach` compares. -/
theorem validate_agreement_fields_diverge :
    (get_scores_slow
        [{ person_id := 1, party_reduced := "labour", chamber := AllowedChambers.commons,
           start_date := 0, end_date := 100 }] 1 "labour"
        { chamber := AllowedChambers.commons
          division_links := []
          agreement_links :=
            [{ date := 50, chamber := AllowedChambers.commons,
               alignment := PolicyDirection.AGREE,
               strength := PolicyStrength.STRONG }] } 0
        100).target_distribution.num_strong_agreements_same = 1 ∧
    (fast_comparison
        [{ person_id := 1, party_reduced := "labour", chamber := AllowedChambers.commons,
           start_date := 0, end_date := 100 }] 1 AllowedChambers.commons "labour"
        { chamber := AllowedChambers.commons
          division_links := []
          agreement_links :=
            [{ date := 50, chamber := AllowedChambers.commons,
               alignment := PolicyDirection.AGREE,
               strength := PolicyStrength.STRONG }] } 0
        100).target_distribution.num_strong_agreements_same = 0 ∧
    tol 1 0 = false := by
  refine ⟨?_, rfl, ?_⟩
  · show (0 : ℚ) + 1 = 1
    norm_num
  · have h1 : |(1 : ℚ) - 0| = 1 := by norm_num
    have h2 : max ((1 : ℚ) / 1000000000 * max |(1 : ℚ)| |(0 : ℚ)|) (1 / 20) = 1 / 20 := by
      rw [abs_one, abs_zero]
      norm_num [max_def]
    simp only [tol, h1, h2, decide_eq_false_iff_not, not_le]
    norm_num
